import Mathlib

/-!
# Verification of the CSV query engine (`processor.py`)

Shallow embedding of `CSVProcessor`: loading (`from_files`), condition parsing
(`_parse_condition`), filtering (`apply_filter`), sorting (`apply_sort`),
aggregation (`apply_aggregate`) and the grouped report (`grouped_report`).

Modelling decisions:
* Python `float` values are modelled as rationals (`ℚ`); `float(s)` becomes the
  decimal parser `parseFloat` (sign, digits, optional fractional part), with
  `none` for a parse failure (Python raises `ValueError`).
* A CSV record is an association list from column names to string values;
  `r[col]` becomes `getField` (an `Except` that fails like Python's `KeyError`
  when the key is missing) and `row.get(col)` becomes a plain `List.lookup`.
* Fallible operations return `Except String α`; the error strings follow the
  messages raised in `processor.py` (without the surrounding quote characters).
* Python's `list.sort(key=...)` is a stable sort that precomputes the key of
  every element (raising during that pass if a key computation fails); it is
  modelled by `List.insertionSort` on a key-pullback relation, which is also a
  stable sort, after an explicit key-computability check.
* `round(x, 2)` is modelled by `round2`, rounding half to even as Python does.
-/

namespace CSVProc

/-- A record: a mapping from column names to string field values. -/
abbrev Row := List (String × String)

/-- The in-memory table: ordered header schema plus the record sequence.
`CSVProcessor.__init__` stores `headers` and `rows`. -/
structure Table where
  headers : List String
  rows : List Row
deriving DecidableEq, Repr

/-- A loaded source, as produced by the external reader collaborator
(`csv.DictReader`): a header row plus data records.  An empty source file has
`header = []` (Python's `fieldnames is None`). -/
structure Source where
  header : List String
  rows : List Row
deriving DecidableEq, Repr

/-! ## Numeric parsing: the model of Python `float(s)` -/

/-- Value of a digit string, most significant first. -/
def natVal (cs : List Char) : ℕ :=
  cs.foldl (fun n c => 10 * n + (c.toNat - 48)) 0

/-- Parse an unsigned decimal literal: digits with an optional single point;
at least one digit must be present. -/
def parseUnsigned (cs : List Char) : Option ℚ :=
  let ip := cs.takeWhile Char.isDigit
  let rest := cs.dropWhile Char.isDigit
  match rest with
  | [] => if ip.isEmpty then none else some (natVal ip)
  | '.' :: fp =>
      if fp.all Char.isDigit && !(ip.isEmpty && fp.isEmpty) then
        some ((natVal ip : ℚ) + (natVal fp : ℚ) / (10 : ℚ) ^ fp.length)
      else none
  | _ => none

/-- Model of Python `float(s)`: `none` when `float` would raise `ValueError`. -/
def parseFloat (s : String) : Option ℚ :=
  match s.data with
  | '-' :: cs => (parseUnsigned cs).map (fun q => -q)
  | '+' :: cs => parseUnsigned cs
  | cs => parseUnsigned cs

/-- Model of `CSVProcessor._is_numeric`. -/
def isNumeric (s : String) : Bool :=
  (parseFloat s).isSome

/-- Model of Python `float(s)` raising: `Except` version of `parseFloat`. -/
def parseFloatE (v : String) : Except String ℚ :=
  match parseFloat v with
  | some q => .ok q
  | none => .error ("could not convert string to float: " ++ v)

/-! ## Rounding: the model of Python `round(x, 2)` -/

/-- Round a rational to the nearest integer, half to even (Python `round`). -/
def roundHalfEven (q : ℚ) : ℤ :=
  if Int.fract q < 1 / 2 then ⌊q⌋
  else if 1 / 2 < Int.fract q then ⌊q⌋ + 1
  else if ⌊q⌋ % 2 = 0 then ⌊q⌋ else ⌊q⌋ + 1

/-- Model of Python `round(x, 2)`. -/
def round2 (q : ℚ) : ℚ :=
  (roundHalfEven (q * 100) : ℚ) / 100

/-! ## Field access -/

/-- The string value of column `col` in record `r`, defaulting to `""`.
Used only where the column is known to be present in the record. -/
def strField (col : String) (r : Row) : String :=
  (List.lookup col r).getD ""

/-- Model of Python `r[col]`: fails like `KeyError` when the key is absent. -/
def getField (col : String) (r : Row) : Except String String :=
  match List.lookup col r with
  | some v => .ok v
  | none => .error ("KeyError: " ++ col)

/-- Extract the `col` field of every row, in row order; fails like `KeyError`
if any row lacks the key (Python touches `r[col]` for every row in the
operations that use this). -/
def getColE (col : String) (rows : List Row) : Except String (List String) :=
  if rows.all (fun r => (List.lookup col r).isSome) then
    .ok (rows.map (strField col))
  else .error ("KeyError: " ++ col)

/-! ## Condition parsing: `CSVProcessor._parse_condition` -/

/-- Split a character list at the first occurrence of `sep`
(Python `s.split(sep, 1)` when `sep` occurs). -/
def splitFirst (sep : Char) (cs : List Char) : List Char × List Char :=
  (cs.takeWhile (fun c => c != sep), ((cs.dropWhile (fun c => c != sep)).drop 1))

/-- Strip surrounding whitespace (Python `str.strip()`). -/
def trimChars (cs : List Char) : List Char :=
  ((cs.dropWhile Char.isWhitespace).reverse.dropWhile Char.isWhitespace).reverse

/-- Characters back to a string, trimmed. -/
def trimStr (cs : List Char) : String :=
  ⟨trimChars cs⟩

/-- Model of `_parse_condition` with no expected operator (the filter path):
a single `=` splits there; otherwise split at the first `>` if `>` occurs
anywhere, else at the first `<`; otherwise fail. -/
def parse_condition (cond : String) : Except String (String × String × String) :=
  let cs := cond.data
  if cs.count '=' = 1 then
    .ok (trimStr (splitFirst '=' cs).1, "=", trimStr (splitFirst '=' cs).2)
  else if cs.contains '>' then
    .ok (trimStr (splitFirst '>' cs).1, ">", trimStr (splitFirst '>' cs).2)
  else if cs.contains '<' then
    .ok (trimStr (splitFirst '<' cs).1, "<", trimStr (splitFirst '<' cs).2)
  else .error "Condition must contain >, < or =."

/-- Model of `_parse_condition` in expected-operator mode (the sort/aggregate path).
With a unique `=` it returns the two trimmed halves.  Otherwise the Python
function returns a 3-tuple which the caller unpacks into two variables,
raising `ValueError: too many values to unpack`. -/
def parse_condition_eq (cond : String) : Except String (String × String) :=
  let cs := cond.data
  if cs.count '=' = 1 then
    .ok (trimStr (splitFirst '=' cs).1, trimStr (splitFirst '=' cs).2)
  else if cs.contains '>' || cs.contains '<' then
    .error "too many values to unpack"
  else .error "Condition must contain >, < or =."

/-! ## Shared helpers for fallible iteration -/

/-- Map a fallible function over a list, stopping at the first failure
(Python evaluates comprehensions left to right and raises at the first
failing element). -/
def mapE (f : α → Except String β) : List α → Except String (List β)
  | [] => .ok []
  | a :: l =>
    match f a with
    | .error e => .error e
    | .ok b =>
      match mapE f l with
      | .error e => .error e
      | .ok bs => .ok (b :: bs)

/-- Filter with a fallible predicate, left to right, first failure wins
(the list comprehension in `apply_filter`). -/
def filterE (p : α → Except String Bool) : List α → Except String (List α)
  | [] => .ok []
  | a :: l =>
    match p a with
    | .error e => .error e
    | .ok b =>
      match filterE p l with
      | .error e => .error e
      | .ok rest => .ok (if b then a :: rest else rest)

/-! ## Error messages (quote characters of the Python messages omitted) -/

/-- The column-not-found message of the `ValueError` raised by filter, sort and aggregate. -/
def colErr (col : String) : String :=
  s!"Column {col} not found in CSV."

/-- The must-be-numeric message of the `ValueError` raised by the aggregate. -/
def numErr (col : String) : String :=
  s!"Column {col} must be numeric for aggregation."

/-! ## Loading: `CSVProcessor.from_files` -/

/-- The loader loop over the sources: establish the schema from the first
source, check every later source against it, concatenate the rows. -/
def loadLoop (hdr : Option (List String)) (acc : List Row) :
    List Source → Except String (Option (List String) × List Row)
  | [] => .ok (hdr, acc)
  | s :: rest =>
    match hdr with
    | none =>
      if s.header.isEmpty then .error "Empty CSV"
      else loadLoop (some s.header) (acc ++ s.rows) rest
    | some h =>
      if s.header = h then loadLoop (some h) (acc ++ s.rows) rest
      else .error "Headers mismatch"

/-- Model of `CSVProcessor.from_files`, over the sources yielded by the reader
collaborator.  The final empty-header check is `CSVProcessor.__init__`. -/
def from_files (srcs : List Source) : Except String Table :=
  match loadLoop none [] srcs with
  | .error e => .error e
  | .ok (none, _) => .error "No files provided"
  | .ok (some h, rows) =>
    if h.isEmpty then .error "CSV file is empty or invalid."
    else .ok ⟨h, rows⟩

/-! ## Sorting: `CSVProcessor.apply_sort` -/

/-- The parsed float value of column `col` in record `r` (total version; only
used where every value is known to parse). -/
def fval (col : String) (r : Row) : ℚ :=
  (parseFloat (strField col r)).getD 0

/-- A string with its characters reversed (Python `v[::-1]`). -/
def revStr (s : String) : String :=
  ⟨s.data.reverse⟩

/-- The sort key of a row for a numeric column: the parsed float for `asc`,
its negation for `desc` (the code's `-v if numeric`). -/
def sortKeyQ (dir col : String) (r : Row) : ℚ :=
  if dir = "asc" then fval col r else -fval col r

/-- The sort key of a row for a text column: the raw string for `asc`, the
character-reversed string for `desc` (the code's `v[::-1]`). -/
def sortKeyS (dir col : String) (r : Row) : String :=
  if dir = "asc" then strField col r else revStr (strField col r)

/-- Lexicographic order on character lists by code point, a proper prefix
coming first: the model of Python's string comparison. -/
def lexLe : List Char → List Char → Bool
  | [], _ => true
  | _ :: _, [] => false
  | a :: as, b :: bs =>
    if a.toNat < b.toNat then true
    else if b.toNat < a.toNat then false
    else lexLe as bs

/-- Python `s1 <= s2` on strings. -/
def strLeB (a b : String) : Bool :=
  lexLe a.data b.data

/-- Python `x <= y` on numbers (as rationals). -/
def qLeB (a b : ℚ) : Bool :=
  decide (a ≤ b)

/-- The comparison the stable sort uses: compare the keys of the two
elements with the comparator `le`. -/
def keyRelB {α β : Type} (le : β → β → Bool) (f : α → β) (a b : α) : Prop :=
  le (f a) (f b) = true

instance {α β : Type} (le : β → β → Bool) (f : α → β) :
    DecidableRel (keyRelB le f) :=
  fun a b => inferInstanceAs (Decidable (le (f a) (f b) = true))

/-- The numeric-ness inference of `apply_sort` (and the numeric precondition
of `apply_aggregate`): every non-empty value parses as a float; empty values
are skipped. -/
def allNumericOrEmpty (vals : List String) : Bool :=
  vals.all (fun v => v == "" || isNumeric v)

/-- Model of `CSVProcessor.apply_sort`.  After validation it infers numeric-ness from
the non-empty values, computes the key of every row (Python raises
`ValueError` from `float(...)` while computing keys if a value — necessarily
an empty string, given the inference — fails to parse), and stably sorts by
the key. -/
def apply_sort (t : Table) (orderBy : String) : Except String Table :=
  match parse_condition_eq orderBy with
  | .error e => .error e
  | .ok (col, dir) =>
    if t.headers.contains col then
      if dir == "asc" || dir == "desc" then
        match getColE col t.rows with
        | .error e => .error e
        | .ok vals =>
          if allNumericOrEmpty vals then
            if vals.all isNumeric then
              .ok { t with rows := List.insertionSort (keyRelB qLeB (sortKeyQ dir col)) t.rows }
            else .error ("could not convert string to float: " ++ "")
          else
            .ok { t with rows := List.insertionSort (keyRelB strLeB (sortKeyS dir col)) t.rows }
      else .error "Sort direction must be asc or desc."
    else .error (colErr col)

/-! ## Filtering: `CSVProcessor.apply_filter` -/

/-- The predicate applied to each record: `>` and `<` coerce both sides to
floats (field first, then operand, each failing like Python `float`); `=`
compares the raw strings. -/
def filterPred (op val col : String) (r : Row) : Except String Bool :=
  match op with
  | ">" =>
    match getField col r with
    | .error e => .error e
    | .ok v =>
      match parseFloatE v with
      | .error e => .error e
      | .ok a =>
        match parseFloatE val with
        | .error e => .error e
        | .ok b => .ok (decide (a > b))
  | "<" =>
    match getField col r with
    | .error e => .error e
    | .ok v =>
      match parseFloatE v with
      | .error e => .error e
      | .ok a =>
        match parseFloatE val with
        | .error e => .error e
        | .ok b => .ok (decide (a < b))
  | _ =>
    match getField col r with
    | .error e => .error e
    | .ok v => .ok (v == val)

/-- Model of `CSVProcessor.apply_filter`. -/
def apply_filter (t : Table) (whereStr : String) : Except String Table :=
  match parse_condition whereStr with
  | .error e => .error e
  | .ok (col, op, val) =>
    if t.headers.contains col then
      if op == ">" || op == "<" || op == "=" then
        match filterE (filterPred op val col) t.rows with
        | .error e => .error e
        | .ok rs => .ok { t with rows := rs }
      else .error "Invalid operator. Supported: >, <, =."
    else .error (colErr col)

/-! ## Aggregation: `CSVProcessor.apply_aggregate` -/

/-- Python `min` over a list (raises on an empty sequence). -/
def listMinQ : List ℚ → Except String ℚ
  | [] => .error "min() arg is an empty sequence"
  | v :: vs => .ok (vs.foldl min v)

/-- Python `max` over a list (raises on an empty sequence). -/
def listMaxQ : List ℚ → Except String ℚ
  | [] => .error "max() arg is an empty sequence"
  | v :: vs => .ok (vs.foldl max v)

/-- The `avg` entry of `_agg_functions`: arithmetic mean, `0.0` on an empty
collection. -/
def avgQ (vs : List ℚ) : ℚ :=
  if vs.isEmpty then 0 else vs.sum / vs.length

/-- Dispatch into `_agg_functions`; an unknown key fails like the dictionary
lookup (`KeyError`). -/
def aggApply (agg : String) (vs : List ℚ) : Except String ℚ :=
  match agg with
  | "avg" => .ok (avgQ vs)
  | "min" => listMinQ vs
  | "max" => listMaxQ vs
  | _ => .error ("KeyError: " ++ agg)

/-- The collected values: the parsed float of every non-empty field value,
in row order (`[float(r[col]) for r in self.rows if r[col]]`). -/
def collectValues (vals : List String) : List ℚ :=
  (vals.filter (fun v => v != "")).map (fun v => (parseFloat v).getD 0)

/-- Model of `CSVProcessor.apply_aggregate`: non-empty-table check, parse, column
check, numeric check, then the aggregate over the collected values, with the
`avg` result rounded to two decimal places. -/
def apply_aggregate (t : Table) (aggregate : String) : Except String (String × ℚ) :=
  if t.rows.isEmpty then .error "No rows to aggregate."
  else
    match parse_condition_eq aggregate with
    | .error e => .error e
    | .ok (col, agg) =>
      if t.headers.contains col then
        match getColE col t.rows with
        | .error e => .error e
        | .ok vals =>
          if allNumericOrEmpty vals then
            match aggApply agg (collectValues vals) with
            | .error e => .error e
            | .ok q => .ok (agg, if agg == "avg" then round2 q else q)
          else .error (numErr col)
      else .error (colErr col)

/-! ## Grouped report: `CSVProcessor.grouped_report` -/

/-- One output entry of the grouped report: the Python dict
`{"brand": name, stat: value}` with its two keys. -/
structure ReportEntry where
  brand : String
  stat : String
  value : ℚ
deriving DecidableEq, Repr

/-- Append a rating to a brand's group, preserving the first-occurrence
order of brands and the arrival order of ratings (Python's insertion-ordered
`defaultdict(list)`). -/
def addToGroup (gs : List (String × List ℚ)) (b : String) (q : ℚ) :
    List (String × List ℚ) :=
  match gs with
  | [] => [(b, [q])]
  | (b', vs) :: rest =>
    if b' = b then (b', vs ++ [q]) :: rest
    else (b', vs) :: addToGroup rest b q

/-- Decide whether a row contributes to the report: both `brand` and
`rating` present (via `row.get`) and non-empty, and `rating` numeric. -/
def eligible (r : Row) : Bool :=
  match List.lookup "brand" r, List.lookup "rating" r with
  | some b, some rat => b != "" && rat != "" && isNumeric rat
  | _, _ => false

/-- The parsed rating of an eligible row. -/
def ratingOf (r : Row) : ℚ :=
  (parseFloat (strField "rating" r)).getD 0

/-- The grouping loop of `grouped_report`: rows failing the eligibility test
are silently skipped. -/
def buildGroups (rows : List Row) : List (String × List ℚ) :=
  rows.foldl
    (fun gs r => if eligible r then addToGroup gs (strField "brand" r) (ratingOf r) else gs)
    []

/-- The stat label: the report kind with its rating suffix removed. -/
def statLabel (report : String) : String :=
  match report with
  | "average-rating" => "average"
  | "min-rating" => "min"
  | "max-rating" => "max"
  | _ => ""

/-- Dispatch into `_report_funcs` plus the rounding applied when the stat
label is `average`. -/
def reportValue (report : String) (vs : List ℚ) : Except String ℚ :=
  match report with
  | "average-rating" => .ok (round2 (avgQ vs))
  | "min-rating" => listMinQ vs
  | "max-rating" => listMaxQ vs
  | _ => .error ("KeyError: " ++ report)

/-- Model of `CSVProcessor.grouped_report`: validate the kind, group the eligible
rows by brand, emit one entry per brand in ascending brand order
(`sorted(groups.items())`; group keys are distinct, so the tuple comparison
reduces to the brand comparison). -/
def grouped_report (t : Table) (report : String) : Except String (List ReportEntry) :=
  if report == "average-rating" || report == "min-rating" || report == "max-rating" then
    mapE
      (fun g => (reportValue report g.2).map (fun q => ReportEntry.mk g.1 (statLabel report) q))
      (List.insertionSort (keyRelB strLeB Prod.fst) (buildGroups t.rows))
  else .error "Invalid report. Supported: average-rating, min-rating, max-rating."

/-! ## Specification-side descriptions of the grouped report -/

/-- The eligible ratings contributed to brand `b`, in row order: exactly what
the grouping loop appends to `groups[b]`. -/
def eligRatings (b : String) (rows : List Row) : List ℚ :=
  (rows.filter (fun r => eligible r && (strField "brand" r == b))).map ratingOf

/-- How one grouping step extends the ratings already collected for a brand
(used to state the loop invariant of `buildGroups`). -/
def groupCombine (old : Option (List ℚ)) (new : List ℚ) : Option (List ℚ) :=
  match old with
  | some l => some (l ++ new)
  | none => if new = [] then none else some new

/-- The total value function of the report for non-empty rating lists
(the `Except`-free description of `reportValue`). -/
def reportValueT (report : String) (vs : List ℚ) : ℚ :=
  match report with
  | "average-rating" => round2 (avgQ vs)
  | "min-rating" =>
    match vs with
    | [] => 0
    | v :: l => l.foldl min v
  | "max-rating" =>
    match vs with
    | [] => 0
    | v :: l => l.foldl max v
  | _ => 0

/-! ## Laws of the two comparators -/

theorem qLeB_iff {a b : ℚ} : qLeB a b = true ↔ a ≤ b := by
  unfold qLeB; exact decide_eq_true_iff

theorem qLeB_refl (a : ℚ) : qLeB a a = true :=
  qLeB_iff.mpr le_rfl

theorem qLeB_total (a b : ℚ) : qLeB a b = true ∨ qLeB b a = true := by
  rcases le_total a b with h | h
  · exact Or.inl (qLeB_iff.mpr h)
  · exact Or.inr (qLeB_iff.mpr h)

theorem qLeB_trans (a b c : ℚ) (h₁ : qLeB a b = true) (h₂ : qLeB b c = true) :
    qLeB a c = true :=
  qLeB_iff.mpr (le_trans (qLeB_iff.mp h₁) (qLeB_iff.mp h₂))

theorem qLeB_antisymm (a b : ℚ) (h₁ : qLeB a b = true) (h₂ : qLeB b a = true) :
    a = b :=
  le_antisymm (qLeB_iff.mp h₁) (qLeB_iff.mp h₂)

theorem charToNat_inj {a b : Char} (h : a.toNat = b.toNat) : a = b := by
  apply Char.ext
  exact UInt32.ext h

theorem lexLe_refl : ∀ as : List Char, lexLe as as = true
  | [] => rfl
  | a :: as => by
    have := lexLe_refl as
    simp [lexLe, this]

theorem lexLe_total : ∀ as bs : List Char, lexLe as bs = true ∨ lexLe bs as = true
  | [], _ => Or.inl rfl
  | _ :: _, [] => Or.inr rfl
  | a :: as, b :: bs => by
    rcases Nat.lt_trichotomy a.toNat b.toNat with h | h | h
    · exact Or.inl (by simp [lexLe, h])
    · have hab : ¬ a.toNat < b.toNat := by omega
      have hba : ¬ b.toNat < a.toNat := by omega
      rcases lexLe_total as bs with hr | hr
      · exact Or.inl (by simp [lexLe, hab, hba, hr])
      · exact Or.inr (by simp [lexLe, hab, hba, hr])
    · exact Or.inr (by simp [lexLe, h])

theorem lexLe_trans : ∀ as bs cs : List Char, lexLe as bs = true →
    lexLe bs cs = true → lexLe as cs = true
  | [], _, _, _, _ => rfl
  | _ :: _, [], _, h₁, _ => by simp [lexLe] at h₁
  | _ :: _, _ :: _, [], _, h₂ => by simp [lexLe] at h₂
  | a :: as, b :: bs, c :: cs, h₁, h₂ => by
    by_cases hba : b.toNat < a.toNat
    · simp [lexLe, hba, Nat.lt_asymm hba] at h₁
    · by_cases hcb : c.toNat < b.toNat
      · simp [lexLe, hcb, Nat.lt_asymm hcb] at h₂
      · by_cases hab : a.toNat < b.toNat
        · have hac : a.toNat < c.toNat := by omega
          simp [lexLe, hac]
        · have heq : a.toNat = b.toNat := by omega
          rw [lexLe, if_neg hab, if_neg hba] at h₁
          by_cases hbc : b.toNat < c.toNat
          · have hac : a.toNat < c.toNat := by omega
            simp [lexLe, hac]
          · have heq' : b.toNat = c.toNat := by omega
            rw [lexLe, if_neg hbc, if_neg hcb] at h₂
            have hac : ¬ a.toNat < c.toNat := by omega
            have hca : ¬ c.toNat < a.toNat := by omega
            rw [lexLe, if_neg hac, if_neg hca]
            exact lexLe_trans as bs cs h₁ h₂

theorem lexLe_antisymm : ∀ as bs : List Char, lexLe as bs = true →
    lexLe bs as = true → as = bs
  | [], [], _, _ => rfl
  | [], _ :: _, _, h₂ => by simp [lexLe] at h₂
  | _ :: _, [], h₁, _ => by simp [lexLe] at h₁
  | a :: as, b :: bs, h₁, h₂ => by
    by_cases hab : a.toNat < b.toNat
    · simp [lexLe, hab, Nat.lt_asymm hab] at h₂
    · by_cases hba : b.toNat < a.toNat
      · simp [lexLe, hba, Nat.lt_asymm hba] at h₁
      · rw [lexLe, if_neg hab, if_neg hba] at h₁
        rw [lexLe, if_neg hba, if_neg hab] at h₂
        have hc : a = b := charToNat_inj (by omega)
        rw [hc, lexLe_antisymm as bs h₁ h₂]

theorem stringDataEq {a b : String} (h : a.data = b.data) : a = b := by
  cases a; cases b; exact congrArg String.mk h

theorem strLeB_refl (a : String) : strLeB a a = true :=
  lexLe_refl a.data

theorem strLeB_total (a b : String) : strLeB a b = true ∨ strLeB b a = true :=
  lexLe_total a.data b.data

theorem strLeB_trans (a b c : String) (h₁ : strLeB a b = true)
    (h₂ : strLeB b c = true) : strLeB a c = true :=
  lexLe_trans a.data b.data c.data h₁ h₂

theorem strLeB_antisymm (a b : String) (h₁ : strLeB a b = true)
    (h₂ : strLeB b a = true) : a = b :=
  stringDataEq (lexLe_antisymm a.data b.data h₁ h₂)

/-! ## Lemmas about the stable key sort -/

theorem sorted_insertionSort_keyB {α β : Type} (le : β → β → Bool) (f : α → β)
    (htot : ∀ x y, le x y = true ∨ le y x = true)
    (htr : ∀ x y z, le x y = true → le y z = true → le x z = true)
    (l : List α) :
    List.Sorted (keyRelB le f) (List.insertionSort (keyRelB le f) l) := by
  haveI : IsTotal α (keyRelB le f) := ⟨fun a b => htot (f a) (f b)⟩
  haveI : IsTrans α (keyRelB le f) := ⟨fun _ _ _ h₁ h₂ => htr _ _ _ h₁ h₂⟩
  exact List.sorted_insertionSort _ l

theorem filter_key_orderedInsert {α β : Type} [DecidableEq β]
    (le : β → β → Bool) (f : α → β) (hrefl : ∀ x, le x x = true)
    (k : β) (a : α) (l : List α) :
    (List.orderedInsert (keyRelB le f) a l).filter (fun x => decide (f x = k)) =
      if f a = k then a :: l.filter (fun x => decide (f x = k))
      else l.filter (fun x => decide (f x = k)) := by
  induction l with
  | nil =>
    by_cases hak : f a = k <;>
      simp [List.orderedInsert, List.filter, hak]
  | cons b l ih =>
    rw [List.orderedInsert]
    by_cases hab : keyRelB le f a b
    · rw [if_pos hab]
      by_cases hak : f a = k <;> simp [List.filter_cons, hak]
    · rw [if_neg hab, List.filter_cons]
      by_cases hbk : f b = k
      · by_cases hak : f a = k
        · refine absurd ?_ hab
          show le (f a) (f b) = true
          rw [hak.trans hbk.symm]
          exact hrefl _
        · simp [hbk, hak, ih]
      · by_cases hak : f a = k <;> simp [hbk, hak, ih]

theorem filter_key_insertionSort {α β : Type} [DecidableEq β]
    (le : β → β → Bool) (f : α → β) (hrefl : ∀ x, le x x = true)
    (k : β) (l : List α) :
    (List.insertionSort (keyRelB le f) l).filter (fun x => decide (f x = k)) =
      l.filter (fun x => decide (f x = k)) := by
  induction l with
  | nil => rfl
  | cons a l ih =>
    rw [List.insertionSort, filter_key_orderedInsert le f hrefl, List.filter_cons]
    by_cases hak : f a = k <;> simp [hak, ih]

theorem sorted_strictB {α β : Type} {le : β → β → Bool} {f : α → β} {l : List α}
    (hs : List.Sorted (keyRelB le f) l) (hn : (l.map f).Nodup) :
    List.Pairwise (fun a b => keyRelB le f a b ∧ f a ≠ f b) l :=
  hs.and (List.pairwise_map.mp hn)

theorem eq_of_perm_strictB {α β : Type} {le : β → β → Bool} {f : α → β}
    (hanti : ∀ x y, le x y = true → le y x = true → x = y) {l₁ l₂ : List α}
    (hp : l₁.Perm l₂)
    (h₁ : List.Pairwise (fun a b => keyRelB le f a b ∧ f a ≠ f b) l₁)
    (h₂ : List.Pairwise (fun a b => keyRelB le f a b ∧ f a ≠ f b) l₂) : l₁ = l₂ := by
  haveI : IsAntisymm α (fun a b => keyRelB le f a b ∧ f a ≠ f b) :=
    ⟨fun _ _ hab hba => absurd (hanti _ _ hab.1 hba.1) hab.2⟩
  exact List.eq_of_perm_of_sorted hp h₁ h₂

/-! ## Helper lemmas about the operations -/

theorem all_congr_perm {α : Type} {l₁ l₂ : List α} (h : l₁.Perm l₂) (p : α → Bool) :
    l₁.all p = l₂.all p := by
  cases h₂ : l₂.all p with
  | true =>
    rw [List.all_eq_true] at h₂ ⊢
    exact fun x hx => h₂ x (h.mem_iff.mp hx)
  | false =>
    cases h₁ : l₁.all p with
    | false => rfl
    | true =>
      rw [List.all_eq_true] at h₁
      rw [← h₂, eq_comm, List.all_eq_true]
      exact fun x hx => h₁ x (h.mem_iff.mpr hx)

theorem getColE_ok_iff {col : String} {rows : List Row} {vals : List String} :
    getColE col rows = .ok vals ↔
      (rows.all (fun r => (List.lookup col r).isSome) = true ∧
        vals = rows.map (strField col)) := by
  unfold getColE
  by_cases h : rows.all (fun r => (List.lookup col r).isSome) = true
  · simp [h, eq_comm]
  · simp [h]

theorem apply_sort_ok_num {t : Table} {c col dir : String} {vals : List String}
    (hp : parse_condition_eq c = .ok (col, dir))
    (hcol : t.headers.contains col = true)
    (hdir : (dir == "asc" || dir == "desc") = true)
    (hvals : getColE col t.rows = .ok vals)
    (hnum : allNumericOrEmpty vals = true)
    (hall : vals.all isNumeric = true) :
    apply_sort t c =
      .ok { t with rows := List.insertionSort (keyRelB qLeB (sortKeyQ dir col)) t.rows } := by
  unfold apply_sort
  rw [hp]
  dsimp only
  rw [if_pos hcol, if_pos hdir, hvals]
  dsimp only
  rw [if_pos hnum, if_pos hall]

theorem apply_sort_ok_text {t : Table} {c col dir : String} {vals : List String}
    (hp : parse_condition_eq c = .ok (col, dir))
    (hcol : t.headers.contains col = true)
    (hdir : (dir == "asc" || dir == "desc") = true)
    (hvals : getColE col t.rows = .ok vals)
    (hnum : allNumericOrEmpty vals = false) :
    apply_sort t c =
      .ok { t with rows := List.insertionSort (keyRelB strLeB (sortKeyS dir col)) t.rows } := by
  unfold apply_sort
  rw [hp]
  dsimp only
  rw [if_pos hcol, if_pos hdir, hvals]
  dsimp only
  rw [if_neg (by simp [hnum])]

theorem apply_sort_err_float {t : Table} {c col dir : String} {vals : List String}
    (hp : parse_condition_eq c = .ok (col, dir))
    (hcol : t.headers.contains col = true)
    (hdir : (dir == "asc" || dir == "desc") = true)
    (hvals : getColE col t.rows = .ok vals)
    (hnum : allNumericOrEmpty vals = true)
    (hall : vals.all isNumeric = false) :
    apply_sort t c = .error ("could not convert string to float: " ++ "") := by
  unfold apply_sort
  rw [hp]
  dsimp only
  rw [if_pos hcol, if_pos hdir, hvals]
  dsimp only
  rw [if_pos hnum, if_neg (by simp [hall])]

theorem apply_sort_ok_cases {t t' : Table} {c : String}
    (h : apply_sort t c = .ok t') :
    ∃ col dir vals,
      parse_condition_eq c = .ok (col, dir) ∧
      t.headers.contains col = true ∧
      (dir == "asc" || dir == "desc") = true ∧
      getColE col t.rows = .ok vals ∧
      t'.headers = t.headers ∧
      ((allNumericOrEmpty vals = true ∧ vals.all isNumeric = true ∧
          t'.rows = List.insertionSort (keyRelB qLeB (sortKeyQ dir col)) t.rows) ∨
        (allNumericOrEmpty vals = false ∧
          t'.rows = List.insertionSort (keyRelB strLeB (sortKeyS dir col)) t.rows)) := by
  unfold apply_sort at h
  split at h
  · exact absurd h (by simp)
  next col dir hp =>
    refine ⟨col, dir, ?_⟩
    split at h
    · split at h
      · split at h
        · exact absurd h (by simp)
        next vals hv =>
          split at h
          · split at h
            · obtain rfl := Except.ok.inj h
              exact ⟨vals, hp, by assumption, by assumption, hv, rfl,
                Or.inl ⟨by assumption, by assumption, rfl⟩⟩
            · exact absurd h (by simp)
          · obtain rfl := Except.ok.inj h
            exact ⟨vals, hp, by assumption, by assumption, hv, rfl,
              Or.inr ⟨Bool.eq_false_iff.mpr (by assumption), rfl⟩⟩
      · exact absurd h (by simp)
    · exact absurd h (by simp)

theorem getColE_perm {col : String} {rows₁ rows₂ : List Row} (h : rows₁.Perm rows₂)
    {vals₂ : List String} (hv : getColE col rows₂ = .ok vals₂) :
    getColE col rows₁ = .ok (rows₁.map (strField col)) ∧
      (rows₁.map (strField col)).Perm vals₂ := by
  obtain ⟨hall, rfl⟩ := getColE_ok_iff.mp hv
  exact ⟨getColE_ok_iff.mpr ⟨(all_congr_perm h _).trans hall, rfl⟩, h.map _⟩

theorem insertionSort_negKey_reverse {α : Type} (f g : α → ℚ) (hg : ∀ a, g a = -f a)
    (l : List α) (hs : List.Sorted (keyRelB qLeB f) l) (hn : (l.map f).Nodup) :
    List.insertionSort (keyRelB qLeB g) l = l.reverse := by
  have hstrict : List.Pairwise (fun a b => keyRelB qLeB f a b ∧ f a ≠ f b) l :=
    sorted_strictB hs hn
  have hng : (l.map g).Nodup := by
    have : l.map g = (l.map f).map (fun q : ℚ => -q) := by
      rw [List.map_map]; exact List.map_congr_left (fun a _ => hg a)
    rw [this]
    exact hn.map (fun _ _ h => neg_injective h)
  apply eq_of_perm_strictB qLeB_antisymm (f := g)
  · exact (List.perm_insertionSort _ l).trans l.reverse_perm.symm
  · apply sorted_strictB
      (sorted_insertionSort_keyB qLeB g qLeB_total qLeB_trans l)
    exact (((List.perm_insertionSort (keyRelB qLeB g) l).map g).nodup_iff).mpr hng
  · rw [List.pairwise_reverse]
    refine hstrict.imp (fun h => ?_)
    refine ⟨qLeB_iff.mpr ?_, ?_⟩
    · rw [hg, hg]
      exact neg_le_neg (le_of_lt (lt_of_le_of_ne (qLeB_iff.mp h.1) h.2))
    · rw [hg, hg]
      exact fun hc => h.2 (neg_injective hc).symm

/-! ## C1 and C10: the sort ordering -/

/-- C1 (amended): a successful `apply_sort` stably sorts the rows by the key
the code computes — for a numeric column (every non-empty value parses) the
parsed float for `asc` and its negation for `desc`; for a text column the raw
string for `asc` and the character-reversed string for `desc`.  The result is
a permutation sorted by that key, and rows with equal keys keep their prior
relative order.  (The original claim that `desc` yields exactly the reverse
of the ascending ordering fails for text columns.) -/
theorem apply_sort_ordering (t t' : Table) (c col dir : String)
    (h : apply_sort t c = .ok t') (hp : parse_condition_eq c = .ok (col, dir)) :
    t'.headers = t.headers ∧ t'.rows.Perm t.rows ∧
    (∀ vals, getColE col t.rows = .ok vals →
      (allNumericOrEmpty vals = true →
        List.Sorted (keyRelB qLeB (sortKeyQ dir col)) t'.rows ∧
        ∀ k : ℚ, t'.rows.filter (fun r => decide (sortKeyQ dir col r = k)) =
          t.rows.filter (fun r => decide (sortKeyQ dir col r = k))) ∧
      (allNumericOrEmpty vals = false →
        List.Sorted (keyRelB strLeB (sortKeyS dir col)) t'.rows ∧
        ∀ k : String, t'.rows.filter (fun r => decide (sortKeyS dir col r = k)) =
          t.rows.filter (fun r => decide (sortKeyS dir col r = k)))) := by
  obtain ⟨col₀, dir₀, vals₀, hp₀, hcol₀, hdir₀, hv₀, hhd, hbr⟩ := apply_sort_ok_cases h
  obtain ⟨rfl, rfl⟩ : col₀ = col ∧ dir₀ = dir := by
    have := hp₀.symm.trans hp
    exact ⟨congrArg Prod.fst (Except.ok.inj this), congrArg Prod.snd (Except.ok.inj this)⟩
  refine ⟨hhd, ?_, ?_⟩
  · rcases hbr with ⟨_, _, hrw⟩ | ⟨_, hrw⟩ <;>
      exact hrw ▸ List.perm_insertionSort _ _
  · intro vals hv
    obtain rfl : vals₀ = vals := by
      have := hv₀.symm.trans hv
      exact Except.ok.inj this
    constructor
    · intro hnum
      rcases hbr with ⟨_, _, hrw⟩ | ⟨hnum', _⟩
      · rw [hrw]
        exact ⟨sorted_insertionSort_keyB qLeB _ qLeB_total qLeB_trans _,
          fun k => filter_key_insertionSort qLeB _ qLeB_refl k _⟩
      · rw [hnum] at hnum'; exact absurd hnum' (by simp)
    · intro hnum
      rcases hbr with ⟨hnum', _, _⟩ | ⟨_, hrw⟩
      · rw [hnum] at hnum'; exact absurd hnum' (by simp)
      · rw [hrw]
        exact ⟨sorted_insertionSort_keyB strLeB _ strLeB_total strLeB_trans _,
          fun k => filter_key_insertionSort strLeB _ strLeB_refl k _⟩

/-- C1, counterexample to the original claim: on the text column values
`"a", "ab"`, descending sort leaves the order `["a", "ab"]` unchanged
(reversed-string keys `"a" < "ba"`), which is not the reverse of the
ascending lexicographic order `["a", "ab"]`. -/
theorem apply_sort_desc_not_reverse :
    apply_sort ⟨["name"], [[("name", "a")], [("name", "ab")]]⟩ "name=asc" =
      .ok ⟨["name"], [[("name", "a")], [("name", "ab")]]⟩ ∧
    apply_sort ⟨["name"], [[("name", "a")], [("name", "ab")]]⟩ "name=desc" =
      .ok ⟨["name"], [[("name", "a")], [("name", "ab")]]⟩ ∧
    ([[("name", "a")], [("name", "ab")]] : List Row) ≠
      ([[("name", "a")], [("name", "ab")]] : List Row).reverse := by
  refine ⟨rfl, rfl, by decide⟩

/-- C1 witness: the ordering theorem applied to a concrete successful sort. -/
theorem apply_sort_ordering_witness :
    ([[("name", "a")], [("name", "ab")]] : List Row).Perm
      [[("name", "a")], [("name", "ab")]] :=
  (apply_sort_ordering ⟨["name"], [[("name", "a")], [("name", "ab")]]⟩
    ⟨["name"], [[("name", "a")], [("name", "ab")]]⟩ "name=asc" "name" "asc"
    rfl rfl).2.1

/-- C10: on a table where every non-empty value of the sort column parses as
a float but some row holds the empty string, `apply_sort` infers the column
numeric (the inference skips empty values) and then fails with the
float-conversion error raised while computing `float("")` as a sort key,
instead of returning a sorted table. -/
theorem apply_sort_empty_value_raises (t : Table) (c col dir : String)
    (vals : List String)
    (hp : parse_condition_eq c = .ok (col, dir))
    (hcol : t.headers.contains col = true)
    (hdir : (dir == "asc" || dir == "desc") = true)
    (hvals : getColE col t.rows = .ok vals)
    (hnum : ∀ v ∈ vals, v ≠ "" → isNumeric v = true)
    (hempty : "" ∈ vals) :
    apply_sort t c = .error ("could not convert string to float: " ++ "") := by
  apply apply_sort_err_float hp hcol hdir hvals
  · unfold allNumericOrEmpty
    rw [List.all_eq_true]
    intro v hv
    by_cases hve : v = ""
    · simp [hve]
    · simp [hnum v hv hve]
  · rw [Bool.eq_false_iff]
    intro hall
    rw [List.all_eq_true] at hall
    have := hall "" hempty
    exact absurd this (by decide)

/-- C10 witness: sorting the column `x` with values `"2", ""` fails. -/
theorem apply_sort_empty_value_raises_witness :
    apply_sort ⟨["x"], [[("x", "2")], [("x", "")]]⟩ "x=asc" =
      .error ("could not convert string to float: " ++ "") :=
  apply_sort_empty_value_raises ⟨["x"], [[("x", "2")], [("x", "")]]⟩ "x=asc" "x" "asc"
    ["2", ""] rfl rfl rfl rfl (by decide) (by decide)

/-! ## C6: algebra of repeated sorts -/

theorem sort_idem_aux {t t₁ : Table} {c : String}
    (h : apply_sort t c = .ok t₁) : apply_sort t₁ c = .ok t₁ := by
  obtain ⟨col, dir, vals, hp, hcol, hdir, hv, hhd, hbr⟩ := apply_sort_ok_cases h
  have hcol₁ : t₁.headers.contains col = true := by rw [hhd]; exact hcol
  rcases hbr with ⟨hnum, hall, hrw⟩ | ⟨hnum, hrw⟩
  · have hperm : t₁.rows.Perm t.rows := by
      rw [hrw]; exact List.perm_insertionSort _ _
    obtain ⟨hv₁, hpermvals⟩ := getColE_perm hperm hv
    have h1 : allNumericOrEmpty (t₁.rows.map (strField col)) = true :=
      (all_congr_perm hpermvals _).trans hnum
    have h2 : (t₁.rows.map (strField col)).all isNumeric = true :=
      (all_congr_perm hpermvals _).trans hall
    have hsorted : List.Sorted (keyRelB qLeB (sortKeyQ dir col)) t₁.rows := by
      rw [hrw]; exact sorted_insertionSort_keyB qLeB _ qLeB_total qLeB_trans _
    rw [apply_sort_ok_num hp hcol₁ hdir hv₁ h1 h2, hsorted.insertionSort_eq]
  · have hperm : t₁.rows.Perm t.rows := by
      rw [hrw]; exact List.perm_insertionSort _ _
    obtain ⟨hv₁, hpermvals⟩ := getColE_perm hperm hv
    have h1 : allNumericOrEmpty (t₁.rows.map (strField col)) = false :=
      (all_congr_perm hpermvals _).trans hnum
    have hsorted : List.Sorted (keyRelB strLeB (sortKeyS dir col)) t₁.rows := by
      rw [hrw]; exact sorted_insertionSort_keyB strLeB _ strLeB_total strLeB_trans _
    rw [apply_sort_ok_text hp hcol₁ hdir hv₁ h1, hsorted.insertionSort_eq]

theorem sort_reverse_num_aux {t t₁ : Table} {c c' col dir dir' : String}
    {vals : List String}
    (hp : parse_condition_eq c = .ok (col, dir))
    (hp' : parse_condition_eq c' = .ok (col, dir'))
    (hdd : (dir = "asc" ∧ dir' = "desc") ∨ (dir = "desc" ∧ dir' = "asc"))
    (hv : getColE col t.rows = .ok vals)
    (hall : vals.all isNumeric = true)
    (hnd : (t.rows.map (fval col)).Nodup)
    (h : apply_sort t c = .ok t₁) :
    apply_sort t₁ c' = .ok ⟨t₁.headers, t₁.rows.reverse⟩ := by
  obtain ⟨col₀, dir₀, vals₀, hp₀, hcol₀, hdir₀, hv₀, hhd, hbr⟩ := apply_sort_ok_cases h
  have hcd := Except.ok.inj (hp₀.symm.trans hp)
  have e1 : col₀ = col := congrArg Prod.fst hcd
  have e2 : dir₀ = dir := congrArg Prod.snd hcd
  rw [e1] at hcol₀ hv₀
  rw [e2] at hdir₀
  rw [e1, e2] at hbr
  have e3 : vals₀ = vals := Except.ok.inj (hv₀.symm.trans hv)
  rw [e3] at hbr
  have hnum : allNumericOrEmpty vals = true := by
    unfold allNumericOrEmpty
    rw [List.all_eq_true] at hall ⊢
    intro v hvv
    simp [hall v hvv]
  have hrw : t₁.rows = List.insertionSort (keyRelB qLeB (sortKeyQ dir col)) t.rows := by
    rcases hbr with ⟨_, _, hrw⟩ | ⟨hnum', _⟩
    · exact hrw
    · rw [hnum] at hnum'; exact absurd hnum' (by simp)
  have hcol₁ : t₁.headers.contains col = true := by rw [hhd]; exact hcol₀
  have hdir' : (dir' == "asc" || dir' == "desc") = true := by
    rcases hdd with ⟨_, rfl⟩ | ⟨_, rfl⟩ <;> rfl
  have hperm : t₁.rows.Perm t.rows := by
    rw [hrw]; exact List.perm_insertionSort _ _
  obtain ⟨hv₁, hpermvals⟩ := getColE_perm hperm hv
  have h1 : allNumericOrEmpty (t₁.rows.map (strField col)) = true :=
    (all_congr_perm hpermvals _).trans hnum
  have h2 : (t₁.rows.map (strField col)).all isNumeric = true :=
    (all_congr_perm hpermvals _).trans hall
  rw [apply_sort_ok_num hp' hcol₁ hdir' hv₁ h1 h2]
  have hg : ∀ r : Row, sortKeyQ dir' col r = -(sortKeyQ dir col r) := by
    intro r
    rcases hdd with ⟨rfl, rfl⟩ | ⟨rfl, rfl⟩ <;> simp [sortKeyQ]
  have hndt : (t.rows.map (sortKeyQ dir col)).Nodup := by
    rcases hdd with ⟨rfl, _⟩ | ⟨rfl, _⟩
    · have : t.rows.map (sortKeyQ "asc" col) = t.rows.map (fval col) :=
        List.map_congr_left (fun r _ => by simp [sortKeyQ])
      rw [this]; exact hnd
    · have : t.rows.map (sortKeyQ "desc" col) =
          (t.rows.map (fval col)).map (fun q : ℚ => -q) := by
        rw [List.map_map]
        exact List.map_congr_left (fun r _ => by simp [sortKeyQ])
      rw [this]; exact hnd.map (fun _ _ hh => neg_injective hh)
  have hnd₁ : (t₁.rows.map (sortKeyQ dir col)).Nodup :=
    ((hperm.map _).nodup_iff).mpr hndt
  have hsorted : List.Sorted (keyRelB qLeB (sortKeyQ dir col)) t₁.rows := by
    rw [hrw]; exact sorted_insertionSort_keyB qLeB _ qLeB_total qLeB_trans _
  rw [insertionSort_negKey_reverse (sortKeyQ dir col) (sortKeyQ dir' col) hg
    t₁.rows hsorted hnd₁]

/-- C6 (amended): sorting is idempotent — re-sorting with the same condition
returns the table unchanged, for numeric and text columns alike and in both
directions.  Re-sorting with the reversed direction yields the exact reverse
sequence for a *numeric* column with no duplicate keys; for text columns this
fails (see the counterexample), because descending text sort orders by the
character-reversed string rather than reversing the ascending order. -/
theorem apply_sort_idempotent_and_reverse (t t₁ : Table) (c c' col dir dir' : String)
    (vals : List String) :
    (apply_sort t c = .ok t₁ → apply_sort t₁ c = .ok t₁) ∧
    (parse_condition_eq c = .ok (col, dir) →
      parse_condition_eq c' = .ok (col, dir') →
      ((dir = "asc" ∧ dir' = "desc") ∨ (dir = "desc" ∧ dir' = "asc")) →
      getColE col t.rows = .ok vals →
      vals.all isNumeric = true →
      (t.rows.map (fval col)).Nodup →
      apply_sort t c = .ok t₁ →
      apply_sort t₁ c' = .ok ⟨t₁.headers, t₁.rows.reverse⟩) :=
  ⟨fun h => sort_idem_aux h,
    fun hp hp' hdd hv hall hnd h => sort_reverse_num_aux hp hp' hdd hv hall hnd h⟩

/-- C6, counterexample to the reverse-direction half of the original claim:
the text column with the duplicate-free values `"a", "ab"` sorts ascending to
`["a", "ab"]`, and re-sorting that result descending returns `["a", "ab"]`
again — not the exact reverse `["ab", "a"]`. -/
theorem apply_sort_reverse_counterexample :
    apply_sort ⟨["name"], [[("name", "a")], [("name", "ab")]]⟩ "name=asc" =
      .ok ⟨["name"], [[("name", "a")], [("name", "ab")]]⟩ ∧
    apply_sort ⟨["name"], [[("name", "a")], [("name", "ab")]]⟩ "name=desc" =
      .ok ⟨["name"], [[("name", "a")], [("name", "ab")]]⟩ ∧
    strField "name" [("name", "a")] ≠ strField "name" [("name", "ab")] ∧
    ([[("name", "a")], [("name", "ab")]] : List Row) ≠
      ([[("name", "a")], [("name", "ab")]] : List Row).reverse :=
  ⟨rfl, rfl, by decide, by decide⟩

/-- C6 witness: idempotence and numeric reversal on a concrete table. -/
theorem apply_sort_idempotent_and_reverse_witness :
    apply_sort ⟨["x"], [[("x", "1")]]⟩ "x=asc" = .ok ⟨["x"], [[("x", "1")]]⟩ ∧
    apply_sort ⟨["x"], [[("x", "1")]]⟩ "x=desc" =
      .ok ⟨["x"], ([[("x", "1")]] : List Row).reverse⟩ :=
  ⟨(apply_sort_idempotent_and_reverse ⟨["x"], [[("x", "1")]]⟩ ⟨["x"], [[("x", "1")]]⟩
      "x=asc" "x=desc" "x" "asc" "desc" ["1"]).1 rfl,
    (apply_sort_idempotent_and_reverse ⟨["x"], [[("x", "1")]]⟩ ⟨["x"], [[("x", "1")]]⟩
      "x=asc" "x=desc" "x" "asc" "desc" ["1"]).2 rfl rfl (Or.inl ⟨rfl, rfl⟩) rfl rfl
      (List.nodup_singleton _) rfl⟩

/-! ## C3: operator priority in the condition parser -/

/-- C3 (amended): on a condition string containing no `=`, the parser splits
at the first occurrence of `>` whenever `>` occurs anywhere in the string —
even when a `<` occurs earlier — and only splits at the first `<` when no `>`
occurs at all; column and value substrings are trimmed. -/
theorem parse_condition_gt_priority (c : String) (hne : '=' ∉ c.data) :
    ('>' ∈ c.data →
      parse_condition c =
        .ok (trimStr (splitFirst '>' c.data).1, ">", trimStr (splitFirst '>' c.data).2)) ∧
    ('>' ∉ c.data → '<' ∈ c.data →
      parse_condition c =
        .ok (trimStr (splitFirst '<' c.data).1, "<", trimStr (splitFirst '<' c.data).2)) := by
  have hcount : c.data.count '=' ≠ 1 := by
    rw [List.count_eq_zero.mpr hne]
    omega
  constructor
  · intro hgt
    unfold parse_condition
    rw [if_neg hcount, if_pos (List.elem_eq_true_of_mem hgt)]
  · intro hngt hlt
    unfold parse_condition
    rw [if_neg hcount]
    rw [if_neg (fun hc => hngt (by simpa using hc)),
      if_pos (List.elem_eq_true_of_mem hlt)]

/-- C3, counterexample to the original claim: in `"a<b>c"` the leftmost
operator is `<`, so the claimed behaviour would yield `("a", "<", "b>c")`;
the parser instead splits at `>`, yielding `("a<b", ">", "c")`. -/
theorem parse_condition_not_leftmost :
    parse_condition "a<b>c" = .ok ("a<b", ">", "c") ∧
    parse_condition "a<b>c" ≠ .ok ("a", "<", "b>c") := by
  constructor
  · rfl
  · intro h
    have := Except.ok.inj h
    exact absurd (congrArg (fun p => p.2.1) this) (by decide)

/-- C3 witness: the amended theorem applied to the concrete condition
`"p<q>r"`. -/
theorem parse_condition_gt_priority_witness :
    parse_condition "p<q>r" =
      .ok (trimStr (splitFirst '>' ("p<q>r").data).1, ">",
        trimStr (splitFirst '>' ("p<q>r").data).2) :=
  (parse_condition_gt_priority "p<q>r" (by decide)).1 (by decide)

/-! ## C2: behaviour on a missing column -/

theorem foldl_groups_ineligible (rows : List Row) (h : ∀ r ∈ rows, eligible r = false) :
    ∀ gs, rows.foldl
      (fun gs r => if eligible r then addToGroup gs (strField "brand" r) (ratingOf r) else gs)
      gs = gs := by
  induction rows with
  | nil => intro gs; rfl
  | cons r rows ih =>
    intro gs
    rw [List.foldl_cons, if_neg (by simp [h r (List.mem_cons_self r rows)])]
    exact ih (fun x hx => h x (List.mem_cons_of_mem r hx)) gs

/-- C2 (amended): `apply_filter`, `apply_sort` and `apply_aggregate` fail
fast with an error naming the column when it is absent from the schema —
for the aggregate only on a non-empty table, since its empty-table check
precedes the column check.  `grouped_report`, however, performs no schema
check on its fixed `brand`/`rating` columns: rows lacking them are silently
skipped via `row.get`, and the report succeeds with an empty output. -/
theorem column_missing_behaviour (t : Table) (col : String)
    (hcol : t.headers.contains col = false) :
    (∀ w op val, parse_condition w = .ok (col, op, val) →
      apply_filter t w = .error (colErr col)) ∧
    (∀ c dir, parse_condition_eq c = .ok (col, dir) →
      apply_sort t c = .error (colErr col)) ∧
    (∀ c agg, parse_condition_eq c = .ok (col, agg) → t.rows ≠ [] →
      apply_aggregate t c = .error (colErr col)) ∧
    (∀ report, (report == "average-rating" || report == "min-rating" ||
        report == "max-rating") = true →
      (∀ r ∈ t.rows, List.lookup "brand" r = none) →
      grouped_report t report = .ok []) := by
  have hnm : col ∉ t.headers := by simpa using hcol
  refine ⟨?_, ?_, ?_, ?_⟩
  · intro w op val hp
    unfold apply_filter
    rw [hp]
    dsimp only
    rw [if_neg (by simp [hnm])]
  · intro c dir hp
    unfold apply_sort
    rw [hp]
    dsimp only
    rw [if_neg (by simp [hnm])]
  · intro c agg hp hrows
    unfold apply_aggregate
    rw [if_neg (by simp [List.isEmpty_iff, hrows]), hp]
    dsimp only
    rw [if_neg (by simp [hnm])]
  · intro report hrep hbrand
    have helig : ∀ r ∈ t.rows, eligible r = false := by
      intro r hr
      unfold eligible
      rw [hbrand r hr]
    unfold grouped_report buildGroups
    rw [if_pos hrep, foldl_groups_ineligible t.rows helig []]
    rfl

/-- C2, counterexample to the original claim: on a table whose schema has
neither `brand` nor `rating`, `grouped_report` does not fail fast naming a
column — it succeeds and returns an empty report. -/
theorem grouped_report_missing_columns_ok :
    (["x"] : List String).contains "brand" = false ∧
    (["x"] : List String).contains "rating" = false ∧
    grouped_report ⟨["x"], [[("x", "1")]]⟩ "max-rating" = .ok [] :=
  ⟨rfl, rfl, rfl⟩

/-- C2 witness: the amended theorem applied to a concrete table and the
missing column `"y"`. -/
theorem column_missing_behaviour_witness :
    apply_filter ⟨["x"], [[("x", "1")]]⟩ "y=1" = .error (colErr "y") ∧
    apply_sort ⟨["x"], [[("x", "1")]]⟩ "y=asc" = .error (colErr "y") ∧
    apply_aggregate ⟨["x"], [[("x", "1")]]⟩ "y=min" = .error (colErr "y") ∧
    grouped_report ⟨["x"], [[("x", "1")]]⟩ "min-rating" = .ok [] :=
  ⟨(column_missing_behaviour ⟨["x"], [[("x", "1")]]⟩ "y" rfl).1 "y=1" "=" "1" rfl,
    (column_missing_behaviour ⟨["x"], [[("x", "1")]]⟩ "y" rfl).2.1 "y=asc" "asc" rfl,
    (column_missing_behaviour ⟨["x"], [[("x", "1")]]⟩ "y" rfl).2.2.1 "y=min" "min" rfl
      (by decide),
    (column_missing_behaviour ⟨["x"], [[("x", "1")]]⟩ "y" rfl).2.2.2 "min-rating" rfl
      (by decide)⟩

/-! ## C4: the collection passed to the aggregate functions -/

theorem apply_aggregate_unfold {t : Table} {c col agg : String} {vals : List String}
    (hrows : t.rows ≠ [])
    (hp : parse_condition_eq c = .ok (col, agg))
    (hcol : t.headers.contains col = true)
    (hv : getColE col t.rows = .ok vals)
    (hnum : allNumericOrEmpty vals = true) :
    apply_aggregate t c =
      match aggApply agg (collectValues vals) with
      | .error e => .error e
      | .ok q => .ok (agg, if agg == "avg" then round2 q else q) := by
  unfold apply_aggregate
  rw [if_neg (by simp [List.isEmpty_iff, hrows]), hp]
  dsimp only
  rw [if_pos hcol, hv]
  dsimp only
  rw [if_pos hnum]

theorem foldl_min_le {β : Type} [LinearOrder β] :
    ∀ (l : List β) (v : β), ∀ x ∈ v :: l, l.foldl min v ≤ x
  | [], v => by
    intro x hx
    rw [List.mem_singleton] at hx
    rw [hx]
    exact le_rfl
  | a :: l, v => by
    intro x hx
    rw [List.foldl_cons]
    rcases List.mem_cons.mp hx with rfl | hx'
    · exact le_trans (foldl_min_le l (min x a) (min x a) (List.mem_cons_self _ _))
        (min_le_left _ _)
    rcases List.mem_cons.mp hx' with rfl | hx''
    · exact le_trans (foldl_min_le l (min v x) (min v x) (List.mem_cons_self _ _))
        (min_le_right _ _)
    · exact foldl_min_le l (min v a) x (List.mem_cons_of_mem _ hx'')

theorem foldl_min_mem {β : Type} [LinearOrder β] :
    ∀ (l : List β) (v : β), l.foldl min v ∈ v :: l
  | [], v => List.mem_singleton.mpr rfl
  | a :: l, v => by
    rw [List.foldl_cons]
    rcases List.mem_cons.mp (foldl_min_mem l (min v a)) with he | hl
    · rw [he]
      rcases min_choice v a with hva | hva <;> rw [hva]
      · exact List.mem_cons_self _ _
      · exact List.mem_cons_of_mem _ (List.mem_cons_self _ _)
    · exact List.mem_cons_of_mem _ (List.mem_cons_of_mem _ hl)

theorem foldl_max_le {β : Type} [LinearOrder β] :
    ∀ (l : List β) (v : β), ∀ x ∈ v :: l, x ≤ l.foldl max v
  | [], v => by
    intro x hx
    rw [List.mem_singleton] at hx
    rw [hx]
    exact le_rfl
  | a :: l, v => by
    intro x hx
    rw [List.foldl_cons]
    rcases List.mem_cons.mp hx with rfl | hx'
    · exact le_trans (le_max_left _ _)
        (foldl_max_le l (max x a) (max x a) (List.mem_cons_self _ _))
    rcases List.mem_cons.mp hx' with rfl | hx''
    · exact le_trans (le_max_right _ _)
        (foldl_max_le l (max v x) (max v x) (List.mem_cons_self _ _))
    · exact foldl_max_le l (max v a) x (List.mem_cons_of_mem _ hx'')

theorem foldl_max_mem {β : Type} [LinearOrder β] :
    ∀ (l : List β) (v : β), l.foldl max v ∈ v :: l
  | [], v => List.mem_singleton.mpr rfl
  | a :: l, v => by
    rw [List.foldl_cons]
    rcases List.mem_cons.mp (foldl_max_mem l (max v a)) with he | hl
    · rw [he]
      rcases max_choice v a with hva | hva <;> rw [hva]
      · exact List.mem_cons_self _ _
      · exact List.mem_cons_of_mem _ (List.mem_cons_self _ _)
    · exact List.mem_cons_of_mem _ (List.mem_cons_of_mem _ hl)

/-- C4 (amended): under the aggregate preconditions, the collected value
list is non-empty exactly when some row has a non-empty value in the
column; the empty-collection branch is reachable (not unreachable as
claimed) precisely when every value in the column is the empty string, in
which case `avg` takes the `0.0` branch while `min`/`max` fail on the
empty sequence. -/
theorem aggregate_collected_values (t : Table) (c col agg : String) (vals : List String)
    (hrows : t.rows ≠ [])
    (hp : parse_condition_eq c = .ok (col, agg))
    (hcol : t.headers.contains col = true)
    (hv : getColE col t.rows = .ok vals)
    (hnum : allNumericOrEmpty vals = true) :
    ((∃ v ∈ vals, v ≠ "") →
      collectValues vals ≠ [] ∧
      (agg = "min" → ∃ q, apply_aggregate t c = .ok ("min", q)) ∧
      (agg = "max" → ∃ q, apply_aggregate t c = .ok ("max", q))) ∧
    ((∀ v ∈ vals, v = "") →
      collectValues vals = [] ∧
      (agg = "avg" → apply_aggregate t c = .ok ("avg", round2 (avgQ []))) ∧
      (agg = "min" → apply_aggregate t c = .error "min() arg is an empty sequence") ∧
      (agg = "max" → apply_aggregate t c = .error "max() arg is an empty sequence")) := by
  have hunfold := apply_aggregate_unfold hrows hp hcol hv hnum
  constructor
  · rintro ⟨v, hvv, hvne⟩
    have hcne : collectValues vals ≠ [] := by
      unfold collectValues
      intro hc
      rw [List.map_eq_nil_iff] at hc
      rw [List.filter_eq_nil_iff] at hc
      exact absurd (by simpa using hvne) (hc v hvv)
    refine ⟨hcne, ?_, ?_⟩
    · rintro rfl
      obtain ⟨w, ws, hws⟩ := List.exists_cons_of_ne_nil hcne
      refine ⟨ws.foldl min w, ?_⟩
      rw [hunfold]
      unfold aggApply listMinQ
      rw [hws]
      rfl
    · rintro rfl
      obtain ⟨w, ws, hws⟩ := List.exists_cons_of_ne_nil hcne
      refine ⟨ws.foldl max w, ?_⟩
      rw [hunfold]
      unfold aggApply listMaxQ
      rw [hws]
      rfl
  · intro hall
    have hce : collectValues vals = [] := by
      unfold collectValues
      rw [List.map_eq_nil_iff, List.filter_eq_nil_iff]
      intro v hvv
      simp [hall v hvv]
    refine ⟨hce, ?_, ?_, ?_⟩
    · rintro rfl
      rw [hunfold, hce]
      rfl
    · rintro rfl
      rw [hunfold, hce]
      rfl
    · rintro rfl
      rw [hunfold, hce]
      rfl

/-- C4, counterexample to the original claim: a one-row table whose only
`rating` value is the empty string satisfies all three aggregate
preconditions, yet the collected list is empty — `min` fails on an empty
sequence and `avg` takes its supposedly unreachable empty branch. -/
theorem aggregate_empty_collection_counterexample :
    (⟨["rating"], [[("rating", "")]]⟩ : Table).rows ≠ [] ∧
    (["rating"] : List String).contains "rating" = true ∧
    allNumericOrEmpty [""] = true ∧
    collectValues [""] = [] ∧
    apply_aggregate ⟨["rating"], [[("rating", "")]]⟩ "rating=min" =
      .error "min() arg is an empty sequence" ∧
    apply_aggregate ⟨["rating"], [[("rating", "")]]⟩ "rating=avg" =
      .ok ("avg", round2 (avgQ [])) ∧
    round2 (avgQ []) = 0 := by
  refine ⟨by decide, rfl, rfl, rfl, rfl, rfl, ?_⟩
  show round2 0 = 0
  norm_num [round2, roundHalfEven]

/-- C4 witness: the amended theorem applied to a table with one non-empty
and one empty value. -/
theorem aggregate_collected_values_witness :
    collectValues ["1", ""] ≠ [] ∧
    ∃ q, apply_aggregate ⟨["r"], [[("r", "1")], [("r", "")]]⟩ "r=min" = .ok ("min", q) :=
  ⟨((aggregate_collected_values ⟨["r"], [[("r", "1")], [("r", "")]]⟩ "r=min" "r" "min"
      ["1", ""] (by decide) rfl rfl rfl rfl).1 (by decide)).1,
    ((aggregate_collected_values ⟨["r"], [[("r", "1")], [("r", "")]]⟩ "r=min" "r" "min"
      ["1", ""] (by decide) rfl rfl rfl rfl).1 (by decide)).2.1 rfl⟩

/-! ## C5: filter semantics -/

theorem getField_eq {col : String} {r : Row} (h : (List.lookup col r).isSome = true) :
    getField col r = .ok (strField col r) := by
  unfold getField strField
  cases hl : List.lookup col r with
  | none => rw [hl] at h; simp at h
  | some v => rfl

theorem parseFloatE_eq {v : String} (h : isNumeric v = true) :
    parseFloatE v = .ok ((parseFloat v).getD 0) := by
  unfold parseFloatE
  unfold isNumeric at h
  cases hp : parseFloat v with
  | none => rw [hp] at h; simp at h
  | some q => rfl

theorem parseFloatE_err {v : String} (h : isNumeric v = false) :
    parseFloatE v = .error ("could not convert string to float: " ++ v) := by
  unfold parseFloatE
  unfold isNumeric at h
  cases hp : parseFloat v with
  | none => rfl
  | some q => rw [hp] at h; simp at h

theorem filterPred_gt_def (val col : String) (r : Row) :
    filterPred ">" val col r =
      match getField col r with
      | .error e => .error e
      | .ok v =>
        match parseFloatE v with
        | .error e => .error e
        | .ok a =>
          match parseFloatE val with
          | .error e => .error e
          | .ok b => .ok (decide (a > b)) := rfl

theorem filterPred_lt_def (val col : String) (r : Row) :
    filterPred "<" val col r =
      match getField col r with
      | .error e => .error e
      | .ok v =>
        match parseFloatE v with
        | .error e => .error e
        | .ok a =>
          match parseFloatE val with
          | .error e => .error e
          | .ok b => .ok (decide (a < b)) := rfl

theorem filterPred_eq_def (val col : String) (r : Row) :
    filterPred "=" val col r =
      match getField col r with
      | .error e => .error e
      | .ok v => .ok (v == val) := rfl

theorem filterE_ok_of_all {α : Type} (p : α → Except String Bool) (q : α → Bool) :
    ∀ l : List α, (∀ a ∈ l, p a = .ok (q a)) → filterE p l = .ok (l.filter q)
  | [], _ => rfl
  | a :: l, h => by
    unfold filterE
    rw [h a (List.mem_cons_self a l),
      filterE_ok_of_all p q l (fun x hx => h x (List.mem_cons_of_mem _ hx))]
    dsimp only
    rw [List.filter_cons]

theorem filterE_sublist {α : Type} (p : α → Except String Bool) :
    ∀ (l rs : List α), filterE p l = .ok rs → rs.Sublist l
  | [], rs, h => by
    obtain rfl := (Except.ok.inj h).symm
    exact List.nil_sublist _
  | a :: l, rs, h => by
    unfold filterE at h
    cases hp : p a with
    | error e => rw [hp] at h; exact absurd h (by simp)
    | ok b =>
      rw [hp] at h
      cases hf : filterE p l with
      | error e => rw [hf] at h; exact absurd h (by simp)
      | ok rest =>
        rw [hf] at h
        obtain rfl := (Except.ok.inj h).symm
        have hsub := filterE_sublist p l rest hf
        by_cases hb : b = true
        · rw [if_pos hb]
          exact hsub.cons₂ a
        · rw [if_neg hb]
          exact hsub.cons a

theorem filterE_error_of_mem {α : Type} (p : α → Except String Bool) :
    ∀ l : List α, (∃ a ∈ l, ∃ e, p a = .error e) → ∃ e, filterE p l = .error e
  | [], h => absurd h (by simp)
  | a :: l, h => by
    unfold filterE
    cases hp : p a with
    | error e => exact ⟨e, rfl⟩
    | ok b =>
      have hrest : ∃ x ∈ l, ∃ e, p x = .error e := by
        rcases h with ⟨x, hx, e, hxe⟩
        rcases List.mem_cons.mp hx with rfl | hx'
        · rw [hp] at hxe; exact absurd hxe (by simp)
        · exact ⟨x, hx', e, hxe⟩
      obtain ⟨e, he⟩ := filterE_error_of_mem p l hrest
      rw [he]
      exact ⟨e, rfl⟩

theorem apply_filter_unfold {t : Table} {w col op val : String}
    (hp : parse_condition w = .ok (col, op, val))
    (hcol : t.headers.contains col = true)
    (hop : (op == ">" || op == "<" || op == "=") = true) :
    apply_filter t w =
      match filterE (filterPred op val col) t.rows with
      | .error e => .error e
      | .ok rs => .ok { t with rows := rs } := by
  unfold apply_filter
  rw [hp]
  dsimp only
  rw [if_pos hcol, if_pos hop]

theorem apply_filter_ok_inv {t t' : Table} {w : String}
    (h : apply_filter t w = .ok t') :
    ∃ col op val rs, parse_condition w = .ok (col, op, val) ∧
      filterE (filterPred op val col) t.rows = .ok rs ∧
      t'.rows = rs ∧ t'.headers = t.headers := by
  unfold apply_filter at h
  split at h
  · exact absurd h (by simp)
  next col op val hp =>
    split at h
    · split at h
      · split at h
        · exact absurd h (by simp)
        next rs hf =>
          obtain rfl := Except.ok.inj h
          exact ⟨col, op, val, rs, hp, hf, rfl, rfl⟩
      · exact absurd h (by simp)
    · exact absurd h (by simp)

/-- C5: `apply_filter` with `>`/`<` coerces the row's field and the operand
to floats (field first) and propagates a numeric-parse error as soon as any
evaluated row has a non-numeric side; with `=` it keeps exactly the rows
whose raw string field equals the raw operand, never erroring; and every
successful filter returns a subsequence of the original rows (order
preserved) with the schema unchanged. -/
theorem apply_filter_semantics (t : Table) (w col op val : String)
    (hp : parse_condition w = .ok (col, op, val))
    (hcol : t.headers.contains col = true)
    (hwf : ∀ r ∈ t.rows, (List.lookup col r).isSome = true) :
    (op = ">" → (∀ r ∈ t.rows, isNumeric (strField col r) = true) →
      isNumeric val = true →
      apply_filter t w = .ok ⟨t.headers, t.rows.filter (fun r =>
        decide ((parseFloat (strField col r)).getD 0 > (parseFloat val).getD 0))⟩) ∧
    (op = "<" → (∀ r ∈ t.rows, isNumeric (strField col r) = true) →
      isNumeric val = true →
      apply_filter t w = .ok ⟨t.headers, t.rows.filter (fun r =>
        decide ((parseFloat (strField col r)).getD 0 < (parseFloat val).getD 0))⟩) ∧
    ((op = ">" ∨ op = "<") → t.rows ≠ [] →
      (isNumeric val = false ∨ ∃ r ∈ t.rows, isNumeric (strField col r) = false) →
      ∃ e, apply_filter t w = .error e) ∧
    (op = "=" →
      apply_filter t w = .ok ⟨t.headers, t.rows.filter (fun r => strField col r == val)⟩) ∧
    (∀ t', apply_filter t w = .ok t' → t'.rows.Sublist t.rows ∧ t'.headers = t.headers) := by
  refine ⟨?_, ?_, ?_, ?_, ?_⟩
  · rintro rfl hall hval
    rw [apply_filter_unfold hp hcol (by decide),
      filterE_ok_of_all _ (fun r =>
        decide ((parseFloat (strField col r)).getD 0 > (parseFloat val).getD 0)) _
        (fun r hr => by
          rw [filterPred_gt_def, getField_eq (hwf r hr)]
          dsimp only
          rw [parseFloatE_eq (hall r hr)]
          dsimp only
          rw [parseFloatE_eq hval])]
  · rintro rfl hall hval
    rw [apply_filter_unfold hp hcol (by decide),
      filterE_ok_of_all _ (fun r =>
        decide ((parseFloat (strField col r)).getD 0 < (parseFloat val).getD 0)) _
        (fun r hr => by
          rw [filterPred_lt_def, getField_eq (hwf r hr)]
          dsimp only
          rw [parseFloatE_eq (hall r hr)]
          dsimp only
          rw [parseFloatE_eq hval])]
  · intro hops hrows hbad
    have hrowerr : ∃ r ∈ t.rows, ∃ e, filterPred op val col r = .error e := by
      have key : ∀ r ∈ t.rows, isNumeric (strField col r) = false ∨ isNumeric val = false →
          ∃ e, filterPred op val col r = .error e := by
        intro r hr hcase
        rcases hops with rfl | rfl
        · rw [filterPred_gt_def, getField_eq (hwf r hr)]
          dsimp only
          cases hnumf : isNumeric (strField col r) with
          | false =>
            rw [parseFloatE_err hnumf]
            exact ⟨_, rfl⟩
          | true =>
            rw [parseFloatE_eq hnumf]
            dsimp only
            have hvb : isNumeric val = false := by
              rcases hcase with hc | hc
              · rw [hnumf] at hc; exact absurd hc (by simp)
              · exact hc
            rw [parseFloatE_err hvb]
            exact ⟨_, rfl⟩
        · rw [filterPred_lt_def, getField_eq (hwf r hr)]
          dsimp only
          cases hnumf : isNumeric (strField col r) with
          | false =>
            rw [parseFloatE_err hnumf]
            exact ⟨_, rfl⟩
          | true =>
            rw [parseFloatE_eq hnumf]
            dsimp only
            have hvb : isNumeric val = false := by
              rcases hcase with hc | hc
              · rw [hnumf] at hc; exact absurd hc (by simp)
              · exact hc
            rw [parseFloatE_err hvb]
            exact ⟨_, rfl⟩
      rcases hbad with hvb | ⟨r, hr, hrb⟩
      · obtain ⟨r, rs, hrs⟩ := List.exists_cons_of_ne_nil hrows
        have hr : r ∈ t.rows := by rw [hrs]; exact List.mem_cons_self _ _
        exact ⟨r, hr, key r hr (Or.inr hvb)⟩
      · exact ⟨r, hr, key r hr (Or.inl hrb)⟩
    obtain ⟨e, he⟩ := filterE_error_of_mem _ _ hrowerr
    have hop : (op == ">" || op == "<" || op == "=") = true := by
      rcases hops with rfl | rfl <;> decide
    rw [apply_filter_unfold hp hcol hop, he]
    exact ⟨e, rfl⟩
  · rintro rfl
    rw [apply_filter_unfold hp hcol (by decide),
      filterE_ok_of_all _ (fun r => strField col r == val) _
        (fun r hr => by rw [filterPred_eq_def, getField_eq (hwf r hr)])]
  · intro t' h
    obtain ⟨col', op', val', rs, _, hf, hrw, hhd⟩ := apply_filter_ok_inv h
    exact ⟨hrw ▸ filterE_sublist _ _ _ hf, hhd⟩

/-- C5 witness: a concrete numeric filter and a concrete equality filter. -/
theorem apply_filter_semantics_witness :
    apply_filter ⟨["x"], [[("x", "2")], [("x", "10")]]⟩ "x>3" =
      .ok ⟨["x"], ([[("x", "2")], [("x", "10")]] : List Row).filter (fun r =>
        decide ((parseFloat (strField "x" r)).getD 0 > (parseFloat "3").getD 0))⟩ ∧
    apply_filter ⟨["x"], [[("x", "2")], [("x", "10")]]⟩ "x=2" =
      .ok ⟨["x"], ([[("x", "2")], [("x", "10")]] : List Row).filter (fun r =>
        strField "x" r == "2")⟩ :=
  ⟨(apply_filter_semantics ⟨["x"], [[("x", "2")], [("x", "10")]]⟩ "x>3" "x" ">" "3"
      rfl rfl (by decide)).1 rfl (by decide) rfl,
    (apply_filter_semantics ⟨["x"], [[("x", "2")], [("x", "10")]]⟩ "x=2" "x" "=" "2"
      rfl rfl (by decide)).2.2.2.1 rfl⟩

/-! ## C7: numeric values of the aggregates -/

theorem avgQ_eq (vs : List ℚ) : avgQ vs = vs.sum / vs.length := by
  unfold avgQ
  cases vs with
  | nil => simp
  | cons v l => rfl

theorem round2_intCast (q : ℚ) (n : ℤ) (h : q * 100 = (n : ℚ)) :
    round2 q = (n : ℚ) / 100 := by
  unfold round2 roundHalfEven
  rw [h, Int.fract_intCast, Int.floor_intCast]
  rw [if_pos (by norm_num)]

/-- C7: under the aggregate preconditions, `avg` returns
`round(sum/count, 2)` over the collected non-empty values, and `min`/`max`
return the exact unrounded minimum/maximum of those values; in particular
the rating example returns `("avg", 4.49)`. -/
theorem apply_aggregate_numeric (t : Table) (c col agg : String) (vals : List String)
    (hrows : t.rows ≠ [])
    (hp : parse_condition_eq c = .ok (col, agg))
    (hcol : t.headers.contains col = true)
    (hv : getColE col t.rows = .ok vals)
    (hnum : allNumericOrEmpty vals = true) :
    (agg = "avg" → apply_aggregate t c =
      .ok ("avg", round2 ((collectValues vals).sum / ((collectValues vals).length : ℚ)))) ∧
    (agg = "min" → ∀ q, apply_aggregate t c = .ok ("min", q) →
      q ∈ collectValues vals ∧ ∀ x ∈ collectValues vals, q ≤ x) ∧
    (agg = "max" → ∀ q, apply_aggregate t c = .ok ("max", q) →
      q ∈ collectValues vals ∧ ∀ x ∈ collectValues vals, x ≤ q) ∧
    apply_aggregate
      ⟨["rating"], [[("rating", "4.9")], [("rating", "4.8")], [("rating", "4.6")],
        [("rating", "4.7")], [("rating", "4.2")], [("rating", "4.4")],
        [("rating", "4.1")], [("rating", "4.6")], [("rating", "4.1")],
        [("rating", "4.5")]]⟩ "rating=avg" = .ok ("avg", 449/100) := by
  refine ⟨?_, ?_, ?_, ?_⟩
  · rintro rfl
    rw [apply_aggregate_unfold hrows hp hcol hv hnum]
    show Except.ok ("avg", round2 (avgQ (collectValues vals))) = _
    rw [avgQ_eq]
  · rintro rfl q hq
    rw [apply_aggregate_unfold hrows hp hcol hv hnum] at hq
    cases hcv : collectValues vals with
    | nil =>
      rw [hcv] at hq
      have hq' : (Except.error "min() arg is an empty sequence" : Except String (String × ℚ)) =
          Except.ok ("min", q) := hq
      exact absurd hq' (by simp)
    | cons w ws =>
      rw [hcv] at hq
      have hq' : (Except.ok ("min", ws.foldl min w) : Except String (String × ℚ)) =
          Except.ok ("min", q) := hq
      obtain rfl : ws.foldl min w = q :=
        congrArg Prod.snd (Except.ok.inj hq')
      exact ⟨foldl_min_mem ws w, foldl_min_le ws w⟩
  · rintro rfl q hq
    rw [apply_aggregate_unfold hrows hp hcol hv hnum] at hq
    cases hcv : collectValues vals with
    | nil =>
      rw [hcv] at hq
      have hq' : (Except.error "max() arg is an empty sequence" : Except String (String × ℚ)) =
          Except.ok ("max", q) := hq
      exact absurd hq' (by simp)
    | cons w ws =>
      rw [hcv] at hq
      have hq' : (Except.ok ("max", ws.foldl max w) : Except String (String × ℚ)) =
          Except.ok ("max", q) := hq
      obtain rfl : ws.foldl max w = q :=
        congrArg Prod.snd (Except.ok.inj hq')
      exact ⟨foldl_max_mem ws w, foldl_max_le ws w⟩
  · have e9 : (parseFloat "4.9").getD 0 = 49 / 10 := by
      show ((natVal ['4'] : ℚ) + (natVal ['9'] : ℚ) / 10 ^ (['9'] : List Char).length) = 49 / 10
      norm_num [show natVal ['4'] = 4 from by decide, show natVal ['9'] = 9 from by decide]
    have e8 : (parseFloat "4.8").getD 0 = 48 / 10 := by
      show ((natVal ['4'] : ℚ) + (natVal ['8'] : ℚ) / 10 ^ (['8'] : List Char).length) = 48 / 10
      norm_num [show natVal ['4'] = 4 from by decide, show natVal ['8'] = 8 from by decide]
    have e6 : (parseFloat "4.6").getD 0 = 46 / 10 := by
      show ((natVal ['4'] : ℚ) + (natVal ['6'] : ℚ) / 10 ^ (['6'] : List Char).length) = 46 / 10
      norm_num [show natVal ['4'] = 4 from by decide, show natVal ['6'] = 6 from by decide]
    have e7 : (parseFloat "4.7").getD 0 = 47 / 10 := by
      show ((natVal ['4'] : ℚ) + (natVal ['7'] : ℚ) / 10 ^ (['7'] : List Char).length) = 47 / 10
      norm_num [show natVal ['4'] = 4 from by decide, show natVal ['7'] = 7 from by decide]
    have e2 : (parseFloat "4.2").getD 0 = 42 / 10 := by
      show ((natVal ['4'] : ℚ) + (natVal ['2'] : ℚ) / 10 ^ (['2'] : List Char).length) = 42 / 10
      norm_num [show natVal ['4'] = 4 from by decide, show natVal ['2'] = 2 from by decide]
    have e4 : (parseFloat "4.4").getD 0 = 44 / 10 := by
      show ((natVal ['4'] : ℚ) + (natVal ['4'] : ℚ) / 10 ^ (['4'] : List Char).length) = 44 / 10
      norm_num [show natVal ['4'] = 4 from by decide]
    have e1 : (parseFloat "4.1").getD 0 = 41 / 10 := by
      show ((natVal ['4'] : ℚ) + (natVal ['1'] : ℚ) / 10 ^ (['1'] : List Char).length) = 41 / 10
      norm_num [show natVal ['4'] = 4 from by decide, show natVal ['1'] = 1 from by decide]
    have e5 : (parseFloat "4.5").getD 0 = 45 / 10 := by
      show ((natVal ['4'] : ℚ) + (natVal ['5'] : ℚ) / 10 ^ (['5'] : List Char).length) = 45 / 10
      norm_num [show natVal ['4'] = 4 from by decide, show natVal ['5'] = 5 from by decide]
    show Except.ok ("avg", round2 (avgQ [(parseFloat "4.9").getD 0,
        (parseFloat "4.8").getD 0, (parseFloat "4.6").getD 0,
        (parseFloat "4.7").getD 0, (parseFloat "4.2").getD 0,
        (parseFloat "4.4").getD 0, (parseFloat "4.1").getD 0,
        (parseFloat "4.6").getD 0, (parseFloat "4.1").getD 0,
        (parseFloat "4.5").getD 0])) = Except.ok ("avg", (449 / 100 : ℚ))
    have hval : avgQ [(parseFloat "4.9").getD 0, (parseFloat "4.8").getD 0,
        (parseFloat "4.6").getD 0, (parseFloat "4.7").getD 0,
        (parseFloat "4.2").getD 0, (parseFloat "4.4").getD 0,
        (parseFloat "4.1").getD 0, (parseFloat "4.6").getD 0,
        (parseFloat "4.1").getD 0, (parseFloat "4.5").getD 0] = 449 / 100 := by
      rw [avgQ_eq]
      rw [e9, e8, e6, e7, e2, e4, e1, e5]
      norm_num
    rw [hval, round2_intCast (449 / 100) 449 (by norm_num)]
    norm_num

/-- C7 witness: the aggregate theorem applied to a concrete two-row table. -/
theorem apply_aggregate_numeric_witness :
    apply_aggregate ⟨["p"], [[("p", "2")], [("p", "6")]]⟩ "p=avg" =
      .ok ("avg", round2 ((collectValues ["2", "6"]).sum /
        ((collectValues ["2", "6"]).length : ℚ))) :=
  (apply_aggregate_numeric ⟨["p"], [[("p", "2")], [("p", "6")]]⟩ "p=avg" "p" "avg"
    ["2", "6"] (by decide) rfl rfl rfl rfl).1 rfl

/-! ## C9: loading multiple sources -/

theorem loadLoop_all_eq (h : List String) :
    ∀ (srcs : List Source) (acc : List Row), (∀ s ∈ srcs, s.header = h) →
      loadLoop (some h) acc srcs = .ok (some h, acc ++ (srcs.map Source.rows).join)
  | [], acc, _ => by simp [loadLoop]
  | s :: srcs, acc, hall => by
    unfold loadLoop
    dsimp only
    rw [if_pos (hall s (List.mem_cons_self s srcs)),
      loadLoop_all_eq h srcs (acc ++ s.rows)
        (fun x hx => hall x (List.mem_cons_of_mem _ hx))]
    simp [List.append_assoc]

theorem loadLoop_mismatch (h : List String) :
    ∀ (srcs : List Source) (acc : List Row), (∃ s ∈ srcs, s.header ≠ h) →
      loadLoop (some h) acc srcs = .error "Headers mismatch"
  | [], _, hex => absurd hex (by simp)
  | s :: srcs, acc, hex => by
    unfold loadLoop
    dsimp only
    by_cases hs : s.header = h
    · rw [if_pos hs]
      apply loadLoop_mismatch h srcs
      rcases hex with ⟨x, hx, hxne⟩
      rcases List.mem_cons.mp hx with rfl | hx'
      · exact absurd hs hxne
      · exact ⟨x, hx', hxne⟩
    · rw [if_neg hs]

/-- C9 (amended): when the first source's header is non-empty, loading
sources with identical headers succeeds with the rows concatenated in
source order then row order — the row count is the sum of the sources' row
counts — and loading fails with the header-mismatch error whenever some
later source's header differs from the first's.  (When the first source's
header is empty the loader fails with the empty-CSV error instead, see the
counterexample.) -/
theorem from_files_spec (s₀ : Source) (srcs : List Source) (hne : s₀.header ≠ []) :
    ((∀ s ∈ srcs, s.header = s₀.header) →
      from_files (s₀ :: srcs) =
        .ok ⟨s₀.header, ((s₀ :: srcs).map Source.rows).join⟩ ∧
      (((s₀ :: srcs).map Source.rows).join).length =
        ((s₀ :: srcs).map (fun s => s.rows.length)).sum) ∧
    ((∃ s ∈ srcs, s.header ≠ s₀.header) →
      from_files (s₀ :: srcs) = .error "Headers mismatch") := by
  have hstep : loadLoop none [] (s₀ :: srcs) =
      loadLoop (some s₀.header) s₀.rows srcs := by
    conv_lhs => unfold loadLoop
    dsimp only
    rw [if_neg (by simp [List.isEmpty_iff, hne]), List.nil_append]
  constructor
  · intro hall
    constructor
    · unfold from_files
      rw [hstep, loadLoop_all_eq s₀.header srcs s₀.rows hall]
      dsimp only
      rw [if_neg (by simp [List.isEmpty_iff, hne])]
      simp
    · rw [List.length_join, List.map_map]
      rfl
  · intro hex
    unfold from_files
    rw [hstep, loadLoop_mismatch s₀.header srcs s₀.rows hex]

/-- C9, counterexample to the original claim: when the *first* source has an
empty header and a later source's header differs, loading fails with the
empty-CSV error, not the schema-mismatch error. -/
theorem from_files_empty_first_counterexample :
    (⟨["a"], []⟩ : Source).header ≠ (⟨[], []⟩ : Source).header ∧
    from_files [⟨[], []⟩, ⟨["a"], []⟩] = .error "Empty CSV" ∧
    ("Empty CSV" : String) ≠ "Headers mismatch" :=
  ⟨by decide, rfl, by decide⟩

/-- C9 witness: a concrete successful two-source load and a concrete
mismatching load. -/
theorem from_files_spec_witness :
    from_files [⟨["a"], [[("a", "1")]]⟩, ⟨["a"], [[("a", "2")]]⟩] =
      .ok ⟨["a"], (([⟨["a"], [[("a", "1")]]⟩, ⟨["a"], [[("a", "2")]]⟩] :
        List Source).map Source.rows).join⟩ ∧
    from_files [⟨["a"], []⟩, ⟨["b"], []⟩] = .error "Headers mismatch" :=
  ⟨((from_files_spec ⟨["a"], [[("a", "1")]]⟩ [⟨["a"], [[("a", "2")]]⟩]
      (by decide)).1 (by decide)).1,
    (from_files_spec ⟨["a"], []⟩ [⟨["b"], []⟩] (by decide)).2
      ⟨⟨["b"], []⟩, List.mem_cons_self _ _, by decide⟩⟩

/-! ## C8: the grouped report -/

theorem eligRatings_cons (b : String) (r : Row) (rows : List Row) :
    eligRatings b (r :: rows) =
      if (eligible r && (strField "brand" r == b)) = true
      then ratingOf r :: eligRatings b rows
      else eligRatings b rows := by
  unfold eligRatings
  rw [List.filter_cons]
  by_cases h : (eligible r && (strField "brand" r == b)) = true
  · rw [if_pos h, if_pos h, List.map_cons]
  · rw [if_neg h, if_neg h]

theorem addToGroup_lookup :
    ∀ (gs : List (String × List ℚ)) (b : String) (q : ℚ) (b' : String),
    List.lookup b' (addToGroup gs b q) =
      if b' = b then some ((List.lookup b' gs).getD [] ++ [q])
      else List.lookup b' gs
  | [], b, q, b' => by
    unfold addToGroup
    by_cases h : b' = b
    · have ht : (b' == b) = true := beq_iff_eq.mpr h
      simp [List.lookup, ht, h]
    · have hf : (b' == b) = false := beq_eq_false_iff_ne.mpr h
      simp [List.lookup, hf, h]
  | (b₀, vs) :: gs, b, q, b' => by
    unfold addToGroup
    by_cases h₀ : b₀ = b
    · rw [if_pos h₀]
      by_cases h' : b' = b₀
      · have ht : (b' == b₀) = true := beq_iff_eq.mpr h'
        have ht2 : (b == b₀) = true := beq_iff_eq.mpr h₀.symm
        simp [List.lookup, ht, ht2, h'.trans h₀]
      · have hf : (b' == b₀) = false := beq_eq_false_iff_ne.mpr h'
        have hb : b' ≠ b := fun hc => h' (hc.trans h₀.symm)
        simp [List.lookup, hf, hb]
    · rw [if_neg h₀]
      by_cases h' : b' = b₀
      · have ht : (b' == b₀) = true := beq_iff_eq.mpr h'
        have hb : b' ≠ b := fun hc => h₀ (h'.symm.trans hc)
        simp [List.lookup, ht, hb]
      · have hf : (b' == b₀) = false := beq_eq_false_iff_ne.mpr h'
        simp [List.lookup, hf, addToGroup_lookup gs b q b']

theorem addToGroup_keys :
    ∀ (gs : List (String × List ℚ)) (b : String) (q : ℚ),
    (addToGroup gs b q).map Prod.fst =
      if (gs.map Prod.fst).contains b then gs.map Prod.fst
      else gs.map Prod.fst ++ [b]
  | [], b, q => by simp [addToGroup]
  | (b₀, vs) :: gs, b, q => by
    unfold addToGroup
    by_cases h₀ : b₀ = b
    · rw [if_pos h₀]
      have ht2 : (b == b₀) = true := beq_iff_eq.mpr h₀.symm
      have hct : ((((b₀, vs) :: gs).map Prod.fst).contains b) = true := by
        rw [List.map_cons, List.contains_cons, ht2]
        rfl
      rw [if_pos hct]
      simp
    · rw [if_neg h₀]
      rw [List.map_cons, List.map_cons, addToGroup_keys gs b q]
      have hf2 : (b == b₀) = false :=
        beq_eq_false_iff_ne.mpr (fun hc => h₀ hc.symm)
      have hc : ((b₀ :: gs.map Prod.fst).contains b) =
          ((gs.map Prod.fst).contains b) := by
        rw [List.contains_cons, hf2]
        simp
      rw [hc]
      by_cases hg : (gs.map Prod.fst).contains b = true
      · rw [if_pos hg, if_pos hg]
      · rw [if_neg hg, if_neg hg]
        rfl

theorem addToGroup_keys_nodup {gs : List (String × List ℚ)} {b : String} {q : ℚ}
    (h : (gs.map Prod.fst).Nodup) : ((addToGroup gs b q).map Prod.fst).Nodup := by
  rw [addToGroup_keys]
  by_cases hc : (gs.map Prod.fst).contains b = true
  · rw [if_pos hc]; exact h
  · rw [if_neg hc]
    have hnm : b ∉ gs.map Prod.fst := by simpa using hc
    rw [List.nodup_append]
    exact ⟨h, List.nodup_singleton b,
      fun a ha hb => hnm (by rwa [List.mem_singleton.mp hb] at ha)⟩

theorem addToGroup_vals_nonempty {gs : List (String × List ℚ)} {b : String} {q : ℚ}
    (h : ∀ p ∈ gs, p.2 ≠ []) : ∀ p ∈ addToGroup gs b q, p.2 ≠ [] := by
  induction gs with
  | nil =>
    intro p hp
    have hpe : p = (b, [q]) := by simpa [addToGroup] using hp
    rw [hpe]
    simp
  | cons g gs ih =>
    obtain ⟨b₀, vs⟩ := g
    intro p hp
    unfold addToGroup at hp
    by_cases h₀ : b₀ = b
    · rw [if_pos h₀] at hp
      rcases List.mem_cons.mp hp with rfl | hp'
      · simp
      · exact h p (List.mem_cons_of_mem _ hp')
    · rw [if_neg h₀] at hp
      rcases List.mem_cons.mp hp with rfl | hp'
      · exact h _ (List.mem_cons_self _ _)
      · exact ih (fun x hx => h x (List.mem_cons_of_mem _ hx)) p hp'

theorem foldl_groups_lookup :
    ∀ (rows : List Row) (gs : List (String × List ℚ)) (b : String),
    List.lookup b (rows.foldl
      (fun gs r => if eligible r then addToGroup gs (strField "brand" r) (ratingOf r) else gs)
      gs) = groupCombine (List.lookup b gs) (eligRatings b rows)
  | [], gs, b => by
    cases ho : List.lookup b gs <;> simp [eligRatings, groupCombine, ho]
  | r :: rows, gs, b => by
    rw [List.foldl_cons, foldl_groups_lookup rows _ b, eligRatings_cons]
    by_cases he : eligible r = true
    · rw [if_pos he]
      by_cases hb : (strField "brand" r == b) = true
      · have hbeq : strField "brand" r = b := by simpa using hb
        rw [if_pos (by simp [he, hb]), addToGroup_lookup, if_pos hbeq.symm]
        cases ho : List.lookup b gs with
        | none => simp [groupCombine, ho]
        | some l => simp [groupCombine, ho]
      · rw [if_neg (by simp [hb]), addToGroup_lookup,
          if_neg (fun hc => (by simpa using hb : strField "brand" r ≠ b) hc.symm)]
    · rw [if_neg he, if_neg (by simp [he])]

theorem buildGroups_lookup (rows : List Row) (b : String) :
    List.lookup b (buildGroups rows) =
      if eligRatings b rows = [] then none else some (eligRatings b rows) := by
  unfold buildGroups
  rw [foldl_groups_lookup rows [] b]
  rfl

theorem buildGroups_keys_nodup :
    ∀ (rows : List Row) (gs : List (String × List ℚ)),
    (gs.map Prod.fst).Nodup →
    ((rows.foldl
      (fun gs r => if eligible r then addToGroup gs (strField "brand" r) (ratingOf r) else gs)
      gs).map Prod.fst).Nodup
  | [], gs, h => h
  | r :: rows, gs, h => by
    rw [List.foldl_cons]
    apply buildGroups_keys_nodup rows
    by_cases he : eligible r = true
    · rw [if_pos he]
      exact addToGroup_keys_nodup h
    · rw [if_neg he]
      exact h

theorem buildGroups_vals_nonempty :
    ∀ (rows : List Row) (gs : List (String × List ℚ)),
    (∀ p ∈ gs, p.2 ≠ []) →
    ∀ p ∈ rows.foldl
      (fun gs r => if eligible r then addToGroup gs (strField "brand" r) (ratingOf r) else gs)
      gs, p.2 ≠ []
  | [], gs, h => h
  | r :: rows, gs, h => by
    rw [List.foldl_cons]
    apply buildGroups_vals_nonempty rows
    by_cases he : eligible r = true
    · rw [if_pos he]
      exact addToGroup_vals_nonempty h
    · rw [if_neg he]
      exact h

theorem lookup_eq_of_mem_nodupKeys :
    ∀ {gs : List (String × List ℚ)} {p : String × List ℚ},
    (gs.map Prod.fst).Nodup → p ∈ gs → List.lookup p.1 gs = some p.2 := by
  intro gs
  induction gs with
  | nil => intro p _ hp; exact absurd hp (by simp)
  | cons g gs ih =>
    obtain ⟨b₀, vs⟩ := g
    intro p hnd hp
    rcases List.mem_cons.mp hp with rfl | hp'
    · simp [List.lookup]
    · have h1 : p.1 ≠ b₀ := by
        intro hc
        have : p.1 ∈ gs.map Prod.fst := List.mem_map_of_mem Prod.fst hp'
        rw [List.map_cons, List.nodup_cons] at hnd
        exact hnd.1 (hc ▸ this)
      rw [List.map_cons, List.nodup_cons] at hnd
      have hbf : (p.1 == b₀) = false := beq_eq_false_iff_ne.mpr h1
      simpa [List.lookup, hbf] using ih hnd.2 hp'

theorem mem_keys_of_lookup_isSome :
    ∀ (gs : List (String × List ℚ)) (b : String),
    (List.lookup b gs).isSome = true → b ∈ gs.map Prod.fst
  | [], b, h => by simp [List.lookup] at h
  | (b₀, vs) :: gs, b, h => by
    by_cases hb : b = b₀
    · rw [List.map_cons, hb]
      exact List.mem_cons_self _ _
    · rw [List.map_cons]
      have hbf : (b == b₀) = false := beq_eq_false_iff_ne.mpr hb
      refine List.mem_cons_of_mem _ (mem_keys_of_lookup_isSome gs b ?_)
      simpa [List.lookup, hbf] using h

theorem lookup_isSome_of_mem_keys :
    ∀ (gs : List (String × List ℚ)) (b : String),
    b ∈ gs.map Prod.fst → (List.lookup b gs).isSome = true
  | [], b, h => absurd h (by simp)
  | (b₀, vs) :: gs, b, h => by
    by_cases hb : b = b₀
    · simp [List.lookup, beq_iff_eq, hb]
    · rw [List.map_cons, List.mem_cons] at h
      have hbf : (b == b₀) = false := beq_eq_false_iff_ne.mpr hb
      rcases h with hc | h'
      · exact absurd hc hb
      · simpa [List.lookup, hbf] using
          lookup_isSome_of_mem_keys gs b h'

theorem mapE_ok_of_all {α β : Type} (f : α → Except String β) (g : α → β) :
    ∀ l : List α, (∀ a ∈ l, f a = .ok (g a)) → mapE f l = .ok (l.map g)
  | [], _ => rfl
  | a :: l, h => by
    unfold mapE
    rw [h a (List.mem_cons_self a l),
      mapE_ok_of_all f g l (fun x hx => h x (List.mem_cons_of_mem _ hx))]
    rfl

theorem reportValue_ok {report : String} (vs : List ℚ)
    (hrep : (report == "average-rating" || report == "min-rating" ||
      report == "max-rating") = true)
    (hvs : vs ≠ []) :
    reportValue report vs = .ok (reportValueT report vs) := by
  have hd : (report = "average-rating" ∨ report = "min-rating") ∨
      report = "max-rating" := by
    simpa using hrep
  obtain ⟨v, l, rfl⟩ := List.exists_cons_of_ne_nil hvs
  rcases hd with (rfl | rfl) | rfl <;> rfl

theorem eligRatings_ne_iff (b : String) (rows : List Row) :
    eligRatings b rows ≠ [] ↔
      ∃ r ∈ rows, eligible r = true ∧ strField "brand" r = b := by
  unfold eligRatings
  rw [Ne, List.map_eq_nil_iff, List.filter_eq_nil_iff]
  push_neg
  simp [Bool.and_eq_true, beq_iff_eq]

theorem buildGroups_mem_snd {rows : List Row} {p : String × List ℚ}
    (hp : p ∈ buildGroups rows) : p.2 = eligRatings p.1 rows ∧ eligRatings p.1 rows ≠ [] := by
  have hkeys : ((buildGroups rows).map Prod.fst).Nodup := by
    unfold buildGroups
    exact buildGroups_keys_nodup rows [] (by simp)
  have hlk : List.lookup p.1 (buildGroups rows) = some p.2 :=
    lookup_eq_of_mem_nodupKeys hkeys hp
  rw [buildGroups_lookup] at hlk
  by_cases he : eligRatings p.1 rows = []
  · rw [if_pos he] at hlk
    exact absurd hlk (by simp)
  · rw [if_neg he] at hlk
    exact ⟨(Option.some.inj hlk).symm, he⟩

/-- C8: for every valid report kind, `grouped_report` succeeds and returns
one entry per distinct brand having at least one eligible row (non-empty
`brand`, non-empty numeric `rating`); entries are in strictly ascending
lexicographic brand order; each carries the stat label derived from the
kind and the kind's statistic over that brand's eligible ratings in row
order; rows with empty or non-numeric ratings are silently excluded, and
brands with no eligible rating never appear. -/
theorem grouped_report_spec (t : Table) (report : String)
    (hrep : (report == "average-rating" || report == "min-rating" ||
      report == "max-rating") = true) :
    ∃ entries,
      grouped_report t report = .ok entries ∧
      List.Pairwise (fun e₁ e₂ : ReportEntry =>
        strLeB e₁.brand e₂.brand = true ∧ e₁.brand ≠ e₂.brand) entries ∧
      (∀ b : String, (∃ e ∈ entries, e.brand = b) ↔
        (∃ r ∈ t.rows, eligible r = true ∧ strField "brand" r = b)) ∧
      (∀ e ∈ entries, e.stat = statLabel report ∧
        eligRatings e.brand t.rows ≠ [] ∧
        e.value = reportValueT report (eligRatings e.brand t.rows)) := by
  have hkeys : ((buildGroups t.rows).map Prod.fst).Nodup := by
    unfold buildGroups
    exact buildGroups_keys_nodup t.rows [] (by simp)
  have hvne : ∀ p ∈ buildGroups t.rows, p.2 ≠ [] := by
    unfold buildGroups
    exact buildGroups_vals_nonempty t.rows [] (by simp)
  have hperm : (List.insertionSort (keyRelB strLeB Prod.fst) (buildGroups t.rows)).Perm
      (buildGroups t.rows) := List.perm_insertionSort _ _
  have hvne' : ∀ p ∈ List.insertionSort (keyRelB strLeB Prod.fst) (buildGroups t.rows),
      p.2 ≠ [] := fun p hp => hvne p (hperm.mem_iff.mp hp)
  refine ⟨(List.insertionSort (keyRelB strLeB Prod.fst) (buildGroups t.rows)).map
    (fun p => ReportEntry.mk p.1 (statLabel report) (reportValueT report p.2)),
    ?_, ?_, ?_, ?_⟩
  · unfold grouped_report
    rw [if_pos hrep]
    exact mapE_ok_of_all _ _ _ (fun p hp => by
      rw [reportValue_ok p.2 hrep (hvne' p hp)]
      rfl)
  · refine List.pairwise_map.mpr ?_
    have hnd : ((List.insertionSort (keyRelB strLeB Prod.fst)
        (buildGroups t.rows)).map Prod.fst).Nodup :=
      ((hperm.map Prod.fst).nodup_iff).mpr hkeys
    exact sorted_strictB
      (sorted_insertionSort_keyB strLeB Prod.fst strLeB_total strLeB_trans _) hnd
  · intro b
    constructor
    · rintro ⟨e, he, rfl⟩
      obtain ⟨p, hp, rfl⟩ := List.mem_map.mp he
      have hpB : p ∈ buildGroups t.rows := hperm.mem_iff.mp hp
      obtain ⟨_, hne⟩ := buildGroups_mem_snd hpB
      exact (eligRatings_ne_iff _ _).mp hne
    · intro hex
      have hne : eligRatings b t.rows ≠ [] := (eligRatings_ne_iff b t.rows).mpr hex
      have hlk : List.lookup b (buildGroups t.rows) = some (eligRatings b t.rows) := by
        rw [buildGroups_lookup, if_neg hne]
      have hmem : b ∈ (buildGroups t.rows).map Prod.fst :=
        mem_keys_of_lookup_isSome _ b (by rw [hlk]; rfl)
      have hmem' : b ∈ (List.insertionSort (keyRelB strLeB Prod.fst)
          (buildGroups t.rows)).map Prod.fst :=
        ((hperm.map Prod.fst).mem_iff).mpr hmem
      obtain ⟨p, hp, rfl⟩ := List.mem_map.mp hmem'
      exact ⟨ReportEntry.mk p.1 (statLabel report) (reportValueT report p.2),
        List.mem_map_of_mem _ hp, rfl⟩
  · intro e he
    obtain ⟨p, hp, rfl⟩ := List.mem_map.mp he
    have hpB : p ∈ buildGroups t.rows := hperm.mem_iff.mp hp
    obtain ⟨hsnd, hne⟩ := buildGroups_mem_snd hpB
    exact ⟨rfl, hne, congrArg (reportValueT report) hsnd⟩

/-- C8 witness: the report theorem applied to a concrete table and kind. -/
theorem grouped_report_spec_witness :
    ∃ entries, grouped_report
      ⟨["brand", "rating"],
        [[("brand", "b"), ("rating", "2")], [("brand", "a"), ("rating", "4.5")],
          [("brand", "b"), ("rating", "3")], [("brand", ""), ("rating", "9")],
          [("brand", "c"), ("rating", "")]]⟩ "max-rating" = .ok entries :=
  (grouped_report_spec
    ⟨["brand", "rating"],
      [[("brand", "b"), ("rating", "2")], [("brand", "a"), ("rating", "4.5")],
        [("brand", "b"), ("rating", "3")], [("brand", ""), ("rating", "9")],
        [("brand", "c"), ("rating", "")]]⟩ "max-rating" rfl).imp
    (fun _ h => h.1)

end CSVProc
